import Mathlib

/-!
Shallow embedding of the Rift money-muling detection pipeline.

Transactions are records with integer amounts and timestamps (in seconds);
dataframes are lists of transactions in row order.  Pandas stable sorts,
sorted `groupby` keys and first-occurrence `unique()` are modelled
explicitly.  Every floating-point comparison of the source that involves a
division (flow ratios, coefficient of variation, amount decay, passthrough
ratios, standard deviations) is embedded as the exactly equivalent
cross-multiplied integer comparison, stated next to each definition; sample
standard deviations enter only through such comparisons, via the scaled sum
of squares `Σ (n·x − Σx)²`, so no square root is ever needed.
-/

/-- A transaction record (`transaction_id, sender_id, receiver_id, amount,
timestamp`); timestamps are absolute seconds. -/
structure Txn where
  txid : Nat
  sender : String
  receiver : String
  amount : ℤ
  ts : ℤ
deriving DecidableEq, Repr

/-- A dataframe: transactions in row order. -/
abbrev Df := List Txn

/-- Code-point comparison of characters. -/
def charLtB (a b : Char) : Bool := a.val < b.val

/-- Lexicographic comparison of character lists. -/
def charListLt : List Char → List Char → Bool
  | [], [] => false
  | [], _ :: _ => true
  | _ :: _, [] => false
  | a :: as, b :: bs => charLtB a b || (a == b && charListLt as bs)

/-- Python string comparison: lexicographic on code points. -/
def strLt (a b : String) : Bool := charListLt a.data b.data

/-- Non-strict string comparison. -/
def strLe (a b : String) : Bool := strLt a b || a == b

/-- First-occurrence deduplication with an accumulator of already seen
elements: the order of pandas `unique()` and of Python `dict.fromkeys`. -/
def uniqFirstAux (seen : List String) : List String → List String
  | [] => []
  | x :: xs =>
    if seen.contains x then uniqFirstAux seen xs
    else x :: uniqFirstAux (x :: seen) xs

/-- First-occurrence deduplication. -/
def uniqFirst (l : List String) : List String := uniqFirstAux [] l






/-- Stable insertion of `x` into an already sorted list: `x` is placed
before the first element for which `le x y` holds. -/
def insSorted (le : α → α → Bool) (x : α) : List α → List α
  | [] => [x]
  | y :: ys => if le x y then x :: y :: ys else y :: insSorted le x ys

/-- Stable insertion sort (Python `sorted`, pandas sorted group keys). -/
def sortLe (le : α → α → Bool) : List α → List α
  | [] => []
  | x :: xs => insSorted le x (sortLe le xs)






/-- Minimum of a list of integers (head-seeded fold; 0 on empty). -/
def zMin : List ℤ → ℤ
  | [] => 0
  | x :: xs => xs.foldl min x

/-- Maximum of a list of integers (head-seeded fold; 0 on empty). -/
def zMax : List ℤ → ℤ
  | [] => 0
  | x :: xs => xs.foldl max x

/-- Sum of a list of integers. -/
def zSum (l : List ℤ) : ℤ := l.foldl (· + ·) 0

/-- All transactions received by `a`, in row order. -/
def recvTxns (df : Df) (a : String) : Df := df.filter (fun t => t.receiver == a)

/-- All transactions sent by `a`, in row order. -/
def sentTxns (df : Df) (a : String) : Df := df.filter (fun t => t.sender == a)

/-- Transactions from `s` to `r`, in row order. -/
def txnsBetween (df : Df) (s r : String) : Df :=
  df.filter (fun t => t.sender == s && t.receiver == r)

/-- `sent_sum` of the grouped sender stats (0 when absent — `fillna(0)`). -/
def sentSum (df : Df) (a : String) : ℤ := zSum ((sentTxns df a).map (·.amount))

/-- `recv_sum` of the grouped receiver stats (0 when absent — `fillna(0)`). -/
def recvSum (df : Df) (a : String) : ℤ := zSum ((recvTxns df a).map (·.amount))

/-- Span in seconds between the latest and earliest timestamps of a group. -/
def spanSec (l : Df) : ℤ := zMax (l.map (·.ts)) - zMin (l.map (·.ts))

/-- Scaled sum of squared deviations `Σ (n·x − Σx)²` of a list of `n`
integers; the sample variance of the list is this value divided by
`n²·(n−1)`, so every comparison of the source on a standard deviation
appears below as a cross-multiplied comparison on `devSq`. -/
def devSq (l : List ℤ) : ℤ :=
  zSum (l.map (fun x => ((l.length : ℤ) * x - zSum l) ^ 2))

/-! ### Smurfing detector — `backend/detectors/smurfing_patterns.py` -/

/-- Pattern type of a smurfing pattern. -/
inductive PType
  | fan_in
  | fan_out
  | fan_in_out
deriving DecidableEq, Repr

/-- A smurfing pattern as emitted by `detect_smurfing`. -/
structure SmurfPattern where
  ptype : PType
  center : String
  members : List String
  count : Nat
deriving DecidableEq, Repr

/-- Receiver group keys in pandas `groupby` order (sorted, unique). -/
def receiverKeys (df : Df) : List String :=
  sortLe strLe (uniqFirst (df.map (·.receiver)))

/-- Sender group keys in pandas `groupby` order (sorted, unique). -/
def senderKeys (df : Df) : List String :=
  sortLe strLe (uniqFirst (df.map (·.sender)))

/-- `ratio = s_out/s_in if s_in > 0 else 0`, compared against `1/20`:
`ratio < 0.05  ⟺  if s_in > 0 then 20·s_out < s_in else true`. -/
def ratioLt05 (sOut sIn : ℤ) : Bool :=
  if 0 < sIn then 20 * sOut < sIn else true

/-- Same ratio compared against `1/5`:
`ratio < 0.2  ⟺  if s_in > 0 then 5·s_out < s_in else true`. -/
def ratioLt20 (sOut sIn : ℤ) : Bool :=
  if 0 < sIn then 5 * sOut < sIn else true

/-- The fan-in merchant check of `detect_smurfing`: groups of more than 20
transactions are dropped when the centre's flow ratio is below `0.05`, or
when it has more than 20 unique senders and ratio below `0.2`. -/
def fanInMerchant (df : Df) (r : String) (g : Df) : Bool :=
  let sOut := sentSum df r
  let sIn := recvSum df r
  decide (20 < g.length) &&
    (ratioLt05 sOut sIn ||
      (decide (20 < (uniqFirst (g.map (·.sender))).length) && ratioLt20 sOut sIn))

/-- Fan-in patterns: receivers with at least 10 transactions whose inbound
group spans at most 72 hours and which do not look like merchants. -/
def fanInPatterns (df : Df) : List SmurfPattern :=
  (receiverKeys df).filterMap (fun r =>
    let g := recvTxns df r
    if 10 ≤ g.length ∧ spanSec g ≤ 259200 ∧ fanInMerchant df r g = false then
      some ⟨.fan_in, r, uniqFirst (g.map (·.sender)), g.length⟩
    else none)

/-- `cv < 0.01` for the amounts of a group, where
`cv = std/mean if len > 1 and mean > 0 else 0`; equivalently
`len ≤ 1 ∨ Σx ≤ 0 ∨ 10⁴·devSq < (n−1)·(Σx)²`. -/
def cvLt001 (amts : List ℤ) : Bool :=
  if amts.length ≤ 1 then true
  else if zSum amts ≤ 0 then true
  else 10000 * devSq amts < ((amts.length : ℤ) - 1) * (zSum amts) ^ 2

/-- The fan-out payroll check: a pure source (`s_in < 0.05·s_out`, i.e.
`20·s_in < s_out`) is skipped when the group's duration exceeds one hour,
or when its coefficient of variation is below `0.01`. -/
def fanOutPayroll (df : Df) (s : String) (g : Df) : Bool :=
  let sOut := sentSum df s
  let sIn := recvSum df s
  decide (20 * sIn < sOut) &&
    (decide (3600 < spanSec g) || cvLt001 (g.map (·.amount)))

/-- Fan-out patterns: senders with at least 10 transactions whose outbound
group spans at most 72 hours and which do not look like payroll. -/
def fanOutPatterns (df : Df) : List SmurfPattern :=
  (senderKeys df).filterMap (fun s =>
    let g := sentTxns df s
    if 10 ≤ g.length ∧ spanSec g ≤ 259200 ∧ fanOutPayroll df s g = false then
      some ⟨.fan_out, s, uniqFirst (g.map (·.receiver)), g.length⟩
    else none)

/-- `detect_smurfing`: fan-in and fan-out patterns, merged by centre; a
centre with both becomes `fan_in_out` whose members are the union of both
member lists (first-occurrence order stands in for Python set order). -/
def detect_smurfing (df : Df) : List SmurfPattern :=
  let patterns := fanInPatterns df ++ fanOutPatterns df
  let centers := uniqFirst (patterns.map (·.center))
  centers.map (fun c =>
    let plist := patterns.filter (fun p => p.center == c)
    if 1 < plist.length then
      let members := uniqFirst (plist.flatMap (·.members))
      ⟨.fan_in_out, c, members, members.length⟩
    else plist.headD ⟨.fan_in, c, [], 0⟩)

/-! ### Graph construction — `backend/core/graph.py`

`build_graph` produces a `networkx.DiGraph`: nodes are all accounts, one
aggregated edge per ordered pair with at least one transaction.  The node
iteration order of Python sets is modelled canonically as first appearance
in the dataframe. -/

/-- Nodes of the transaction graph, in first-appearance order. -/
def nodesOf (df : Df) : List String :=
  uniqFirst (df.flatMap (fun t => [t.sender, t.receiver]))

/-- Edge predicate of the aggregated directed graph. -/
def edgeB (df : Df) (u v : String) : Bool :=
  df.any (fun t => t.sender == u && t.receiver == v)

/-- Distinct successors of a node (adjacency insertion order). -/
def succList (df : Df) (u : String) : List String :=
  uniqFirst ((sentTxns df u).map (·.receiver))

/-- Distinct predecessors of a node (adjacency insertion order). -/
def predList (df : Df) (v : String) : List String :=
  uniqFirst ((recvTxns df v).map (·.sender))

/-! ### Simple-cycle enumeration (`networkx.simple_cycles`)

Each simple cycle is produced exactly once, written starting from its
smallest node; the enumeration order (smallest start node first, then DFS
in sorted successor order) is a canonical stand-in for the NetworkX
iteration order. -/

/-- Fuel-bounded DFS in the canonical enumeration: from `cur`, close the
cycle back to `start` or extend through a node of `allowed`. -/
def dfsCycles (E : String → String → Bool) (start : String) :
    Nat → String → List String → List String → List (List String)
  | 0, _, _, _ => []
  | fuel + 1, cur, path, allowed =>
    (if E cur start then [path.reverse] else []) ++
      allowed.flatMap (fun w =>
        if E cur w then
          dfsCycles E start fuel w (w :: path) (allowed.filter (fun y => y ≠ w))
        else [])

/-- All simple cycles of the graph on `V` with edge predicate `E`, each
exactly once, with its smallest node first. -/
def simpleCyclesList (V : List String) (E : String → String → Bool) :
    List (List String) :=
  let Vs := sortLe strLe V
  Vs.flatMap (fun v =>
    dfsCycles E v (V.length + 1) v [v] (Vs.filter (fun w => strLt v w)))

/-! ### Cycle detector used by the orchestrator —
`backend/detectors/circular_fund_routing.py` -/

/-- The list of directed edges of a cycle, including the wrap-around edge
(`cycle[i] → cycle[(i+1) % len]`). -/
def cycleEdges (c : List String) : List (String × String) := c.zip (c.rotate 1)

/-- The earliest transaction of a list (`nsmallest(1,'timestamp')`): the
first transaction attaining the minimal timestamp; `none` on empty. -/
def earliestTxn (l : Df) : Option Txn :=
  l.foldl
    (fun acc t =>
      match acc with
      | none => some t
      | some b => if t.ts < b.ts then some t else some b)
    none

/-- Selection loop: the earliest transaction for every listed edge,
`none` as soon as some edge has no transaction. -/
def selEarliest (df : Df) : List (String × String) → Option (List Txn)
  | [] => some []
  | e :: rest =>
    match earliestTxn (txnsBetween df e.1 e.2) with
    | none => none
    | some t =>
      match selEarliest df rest with
      | none => none
      | some sel => some (t :: sel)

/-- For every directed edge of the cycle, the earliest transaction between
that ordered pair; `none` as soon as some edge has no transaction. -/
def edgeSel (df : Df) (c : List String) : Option (List Txn) :=
  selEarliest df (cycleEdges c)

/-- `validate_cycle_temporal`: the selected transactions must span at most
72 hours (`span/3600 > 72` rejects, i.e. `span > 259200`), and when the
largest selected amount is positive the decay must satisfy
`1 − min/max ≤ 0.3`, embedded as its exact cross-multiplied form
`10·(max−min) ≤ 3·max`. -/
def validate_cycle_temporal (c : List String) (df : Df) : Bool :=
  match edgeSel df c with
  | none => false
  | some sel =>
    let tss := sel.map (·.ts)
    if 259200 < zMax tss - zMin tss then false
    else
      let amts := sel.map (·.amount)
      if amts.isEmpty then false
      else
        let mn := zMin amts
        let mx := zMax amts
        if 0 < mx && 3 * mx < 10 * (mx - mn) then false else true

/-- `detect_cycles` of `circular_fund_routing.py`: all simple cycles of
length 3..5 that pass temporal validation — no deduplication by member
set and no enumeration cap. -/
def detect_cycles_dcfr (df : Df) : List (List String) :=
  ((simpleCyclesList (nodesOf df) (edgeB df)).filter
      (fun c => decide (3 ≤ c.length) && decide (c.length ≤ 5))).filter
    (fun c => validate_cycle_temporal c df)

/-! ### SCC-pruned cycle detector — `backend/graph/cycle_detector.py` -/

/-- Fuel-bounded reachable-set expansion. -/
def reachExpand (E : String → String → Bool) (V : List String) :
    Nat → List String → List String
  | 0, R => R
  | n + 1, R =>
    reachExpand E V n (uniqFirst (R ++ V.filter (fun w => R.any (fun x => E x w))))

/-- Reachability along directed edges. -/
def reachB (E : String → String → Bool) (V : List String) (u v : String) : Bool :=
  (reachExpand E V V.length [u]).contains v

/-- The strongly connected component of `u`. -/
def sccOf (E : String → String → Bool) (V : List String) (u : String) : List String :=
  V.filter (fun v => reachB E V u v && reachB E V v u)

/-- All strongly connected components, listed by first node appearance. -/
def sccGo (E : String → String → Bool) (V : List String) :
    List String → List String → List (List String)
  | [], _ => []
  | v :: vs, seen =>
    if seen.contains v then sccGo E V vs seen
    else sccOf E V v :: sccGo E V vs (seen ++ sccOf E V v)

/-- `strongly_connected_components` of the transaction graph. -/
def strongComponents (df : Df) : List (List String) :=
  sccGo (edgeB df) (nodesOf df) (nodesOf df) []

/-- A ring record of the graph-module cycle detector. -/
structure CycleRing where
  members : List String
  cycle_length : Nat
  pattern_label : String
  total_flow : ℤ
deriving DecidableEq, Repr

/-- Aggregated `total_amount` of the edge `u → v`. -/
def totalAmount (df : Df) (u v : String) : ℤ :=
  zSum ((txnsBetween df u v).map (·.amount))

/-- Total flow around a cycle (`if G.has_edge` guard kept). -/
def cycleFlow (df : Df) (c : List String) : ℤ :=
  zSum ((cycleEdges c).map (fun p => if edgeB df p.1 p.2 then totalAmount df p.1 p.2 else 0))

/-- The inner loop of `graph/cycle_detector.detect_cycles` over the raw
cycles of one component: count every raw cycle, stop at the 5000 cap,
filter lengths to 3..5, deduplicate by sorted member tuple. -/
def gdcInner (df : Df) :
    List (List String) → Nat → List (List String) →
      List CycleRing × Nat × List (List String)
  | [], count, seen => ([], count, seen)
  | c :: rest, count, seen =>
    if 5000 ≤ count then ([], count, seen)
    else
      let n := c.length
      if n < 3 ∨ 5 < n then gdcInner df rest (count + 1) seen
      else
        let canon := sortLe strLe c
        if seen.contains canon then gdcInner df rest (count + 1) seen
        else
          let ring : CycleRing := ⟨c, n, "cycle_length_" ++ toString n, cycleFlow df c⟩
          let out := gdcInner df rest (count + 1) (canon :: seen)
          (ring :: out.1, out.2)

/-- The outer loop over qualifying components. -/
def gdcOuter (df : Df) :
    List (List String) → Nat → List (List String) → List CycleRing
  | [], _, _ => []
  | scc :: rest, count, seen =>
    if 5000 ≤ count then []
    else
      let sub := fun u v => scc.contains u && scc.contains v && edgeB df u v
      let cyclesL := simpleCyclesList scc sub
      let out := gdcInner df cyclesL count seen
      out.1 ++ gdcOuter df rest out.2.1 out.2.2

/-- `detect_cycles` of `graph/cycle_detector.py`: SCC-pruned enumeration
with length filter 3..5, canonical deduplication, and a hard cap of 5000
raw cycles across all components. -/
def graph_detect_cycles (df : Df) : List CycleRing :=
  gdcOuter df ((strongComponents df).filter (fun s => 3 ≤ s.length)) 0 []

/-! ### Shell-chain detector — `backend/detectors/layered_shell_networks.py` -/

/-- An intermediate candidate: exactly one distinct predecessor and one
distinct successor in the aggregated graph (`in_degree == 1 and
out_degree == 1`). -/
def isOneOne (df : Df) (v : String) : Bool :=
  (predList df v).length == 1 && (succList df v).length == 1

/-- Forward trace of `detect_shells`: follow the unique successor while it
is a (1,1) node and not already in the chain; append a final non-(1,1)
endpoint. -/
def traceF (df : Df) : Nat → List String → String → List String
  | 0, chain, _ => chain
  | n + 1, chain, cur =>
    match succList df cur with
    | [] => chain
    | s :: _ =>
      if isOneOne df s then
        if chain.contains s then chain else traceF df n (chain ++ [s]) s
      else chain ++ [s]

/-- Backward trace: symmetric, prepending predecessors. -/
def traceB (df : Df) : Nat → List String → String → List String
  | 0, chain, _ => chain
  | n + 1, chain, cur =>
    match predList df cur with
    | [] => chain
    | p :: _ =>
      if isOneOne df p then
        if chain.contains p then chain else traceB df n (p :: chain) p
      else p :: chain

/-- The largest transaction of a list (first on ties), `none` on empty. -/
def maxAmtTxn (l : Df) : Option Txn :=
  l.foldl
    (fun acc t =>
      match acc with
      | none => some t
      | some b => if b.amount < t.amount then some t else some b)
    none

/-- One step state of `validate_shell_flow`: `none` before the first hop,
then `(last_amt, last_time)`. -/
def vsfGo (df : Df) : List String → Option (ℤ × ℤ) → Bool
  | [], _ => true
  | [_], _ => true
  | a :: b :: rest, st =>
    let txs := txnsBetween df a b
    if txs.isEmpty then false
    else
      match st with
      | none =>
        match maxAmtTxn txs with
        | none => false
        | some t => vsfGo df (b :: rest) (some (t.amount, t.ts))
      | some (la, lt) =>
        let txs2 := txs.filter (fun t => lt ≤ t.ts)
        if txs2.isEmpty then false
        else
          -- `last_amt·0.8 ≤ amount ≤ last_amt·1.05`, cross-multiplied:
          -- `4·la ≤ 5·amount  ∧  20·amount ≤ 21·la`
          let cands := txs2.filter
            (fun t => 4 * la ≤ 5 * t.amount && 20 * t.amount ≤ 21 * la)
          if cands.isEmpty then false
          else
            match earliestTxn cands with
            | none => false
            | some t => vsfGo df (b :: rest) (some (t.amount, t.ts))

/-- `validate_shell_flow`: largest transaction on the first hop, then on
each hop the earliest transaction within the amount band and not before
the previous hop's timestamp. -/
def validate_shell_flow (chain : List String) (df : Df) : Bool :=
  vsfGo df chain none

/-- The loop of `detect_shells` over intermediate candidates, skipping
already visited nodes; visited collects the traversed (1,1) nodes of each
chain (the starting node itself is never added, endpoints are not (1,1)). -/
def shellsGo (df : Df) : List String → List String → List (List String)
  | [], _ => []
  | v :: vs, visited =>
    if visited.contains v then shellsGo df vs visited
    else
      let cf := traceF df ((nodesOf df).length + 1) [v] v
      let chain := traceB df ((nodesOf df).length + 1) cf v
      let rest := shellsGo df vs
        (visited ++ chain.filter (fun x => isOneOne df x && x ≠ v))
      if decide (4 ≤ chain.length) && validate_shell_flow chain df then
        chain :: rest
      else rest

/-- `detect_shells`: chains through (1,1) intermediates with at least four
nodes that pass flow validation.  There is no upper length bound. -/
def detect_shells (df : Df) : List (List String) :=
  shellsGo df ((nodesOf df).filter (isOneOne df)) []

/-! ### Rapid inflow/exit detector — `backend/core/profiling.py`

The receiver-side profile enters only through `recv_mean`/`recv_std`; the
source's comparisons on `recv_std` are embedded through `devSq` (for `n`
amounts, `var = devSq/(n²(n−1))`, and `std = 1` when `n ≤ 1`). -/

/-- `recv_std < 10`: true when at most one received amount (`std = 1`),
else `devSq < 100·n²·(n−1)`. -/
def recvStdLt10 (amts : List ℤ) : Bool :=
  if amts.length ≤ 1 then true
  else devSq amts < 100 * (amts.length : ℤ) ^ 2 * ((amts.length : ℤ) - 1)

/-- The anomaly test of `rapid_inflow_exit_detector`: when `recv_std < 10`
the inbound is anomalous iff its amount exceeds 100; otherwise iff
`amount ≥ recv_mean + 3·recv_std`, embedded exactly as
`n·a ≥ Σx  ∧  (n−1)·(n·a − Σx)² ≥ 9·devSq`. -/
def anomalousB (amts : List ℤ) (a : ℤ) : Bool :=
  if recvStdLt10 amts then decide (100 < a)
  else
    let n : ℤ := amts.length
    let sm := zSum amts
    decide (sm ≤ n * a) && decide (9 * devSq amts ≤ (n - 1) * (n * a - sm) ^ 2)

/-- Account transactions sorted (stably) by timestamp. -/
def acctSorted (df : Df) (a : String) : Df :=
  sortLe (fun t u => decide (t.ts ≤ u.ts))
    (df.filter (fun t => t.sender == a || t.receiver == a))

/-- An alert of the rapid inflow/exit detector. -/
structure RapidAlert where
  account : String
  trigger : Nat
  inboundAmount : ℤ
  exitAmount : ℤ
  risk : String
deriving DecidableEq, Repr

/-- Outgoing transactions within 24 hours from the inbound. -/
def rapidExits (df : Df) (a : String) (inbound : Txn) : Df :=
  ((acctSorted df a).filter (fun t => t.sender == a)).filter
    (fun t => inbound.ts ≤ t.ts && t.ts ≤ inbound.ts + 86400)

/-- `passthrough = exit_total/inbound ≥ 0.8` with float semantics: for a
positive inbound this is `4·inbound ≤ 5·exit_total`; a zero inbound gives
`inf` (true iff the exits are positive); a negative inbound flips the
inequality. -/
def passOK (inboundAmt exitTotal : ℤ) : Bool :=
  if 0 < inboundAmt then 4 * inboundAmt ≤ 5 * exitTotal
  else if inboundAmt == 0 then 0 < exitTotal
  else 5 * exitTotal ≤ 4 * inboundAmt

/-- Exits whose destination appears at most twice in the account's whole
outbound history. -/
def unknownExits (df : Df) (a : String) (exits : Df) : Df :=
  exits.filter (fun e =>
    (((acctSorted df a).filter (fun t => t.sender == a)).filter
        (fun t => t.receiver == e.receiver)).length ≤ 2)

/-- Per-inbound body of `rapid_inflow_exit_detector`: `none` when the
inbound is not anomalous, has no exits in the window, or fails the
passthrough/new-destination trigger. -/
def rapid_alert_for (df : Df) (a : String) (inbound : Txn) : Option RapidAlert :=
  if anomalousB ((recvTxns df a).map (·.amount)) inbound.amount then
    let exits := rapidExits df a inbound
    if exits.isEmpty then none
    else
      let exitTotal := zSum (exits.map (·.amount))
      -- `new_dest_ratio ≥ 0.5  ⟺  len ≤ 2·unknown`
      let ratioOK := decide (exits.length ≤ 2 * (unknownExits df a exits).length)
      if passOK inbound.amount exitTotal && ratioOK then
        some ⟨a, inbound.txid, inbound.amount, exitTotal,
          -- `first_exit_mins < 60  ⟺  min exit ts − inbound ts < 3600`
          if zMin (exits.map (·.ts)) - inbound.ts < 3600 then "CRITICAL" else "HIGH"⟩
      else none
  else none

/-- `rapid_inflow_exit_detector`: one alert per triggering inbound, in
timestamp order. -/
def rapid_inflow_exit_detector (a : String) (df : Df) : List RapidAlert :=
  ((acctSorted df a).filter (fun t => t.receiver == a)).filterMap
    (rapid_alert_for df a)

/-! ### Mule-collector detector (through the new-sender gate) —
`backend/detectors/mule_collectors.py`, lines 28–63 -/

/-- Latest timestamp of the batch. -/
def latestTs (df : Df) : ℤ := zMax (df.map (·.ts))

/-- Transactions strictly before the 7-day lookback window. -/
def historicalDf (df : Df) : Df :=
  df.filter (fun t => t.ts < latestTs df - 604800)

/-- Transactions of the last 7 days. -/
def recentDf (df : Df) : Df :=
  df.filter (fun t => latestTs df - 604800 ≤ t.ts)

/-- Receivers of the recent window that pass both size checks
(`len(inbound) ≥ 5` and `≥ 5` unique senders), in sorted group order. -/
def muleCandidates (df : Df) : List String :=
  (sortLe strLe (uniqFirst ((recentDf df).map (·.receiver)))).filter
    (fun r =>
      let inbound := recvTxns (recentDf df) r
      decide (5 ≤ inbound.length) &&
        decide (5 ≤ (uniqFirst (inbound.map (·.sender))).length))

/-- The unique recent senders of a candidate receiver. -/
def recentSenders (df : Df) (r : String) : List String :=
  uniqFirst ((recvTxns (recentDf df) r).map (·.sender))

/-- Recent senders not seen in the historical window for this receiver. -/
def newSenders (df : Df) (r : String) : List String :=
  (recentSenders df r).filter
    (fun s => !((historicalDf df).any (fun t => t.receiver == r && t.sender == s)))

/-- The new-sender gate: the receiver is dropped when
`new_sender_ratio < 0.7  ⟺  10·new < 7·total`. -/
def muleGateRejects (df : Df) (r : String) : Bool :=
  10 * (newSenders df r).length < 7 * (recentSenders df r).length

/-! ### Orchestrator aggregation — `backend/orchestrator.py`, lines 96–233

The region from "Aggregate Results" through the sorted report is embedded
as a function of the dataframe and of the per-account score maps produced
by the surrounding ML and profiling layers (`ml_scores`, `gnn_scores`,
`receiver_s1_map`, `mule_map`, `rapid_exit_map`), which are parameters:
the supervised model and the GCN draw random weights or load external
state, and the S1 layer divides by irrational standard deviations, so they
are not embedded; all claims below quantify over them. -/

/-- Digit character. -/
def digitChar (d : Nat) : Char := Char.ofNat (48 + d)

/-- Decimal digits of a natural number (fuel-bounded). -/
def digitsAux : Nat → Nat → List Char
  | 0, _ => []
  | fuel + 1, n =>
    if n < 10 then [digitChar n] else digitsAux fuel (n / 10) ++ [digitChar (n % 10)]

/-- Decimal string of a natural number. -/
def natStr (n : Nat) : String := String.mk (digitsAux (n + 1) n)

/-- Python `f"{n:03d}"`: zero-padded to at least three digits. -/
def pad3 (n : Nat) : String :=
  if n < 10 then "00" ++ natStr n
  else if n < 100 then "0" ++ natStr n
  else natStr n

/-- A fraud ring record. -/
structure FraudRing where
  ring_id : String
  member_accounts : List String
  center_account : String
  pattern_type : String
  risk_score : ℤ
deriving DecidableEq, Repr

/-- The account → ring-id map. -/
abbrev RM := String → Option String

/-- Unconditional assignment (`account_ring_map[member] = ring_id`). -/
def setRM (m : RM) (k : String) (v : String) : RM :=
  fun x => if x == k then some v else m x

/-- Guarded assignment (`if member not in account_ring_map`). -/
def setAbsent (m : RM) (k : String) (v : String) : RM :=
  if (m k).isNone then setRM m k v else m

/-- String form of a pattern type. -/
def ptypeStr : PType → String
  | .fan_in => "fan_in"
  | .fan_out => "fan_out"
  | .fan_in_out => "fan_in_out"

/-- Cycle ring ids. -/
def cycleRingId (i : Nat) : String := "RING_CYCLE_" ++ pad3 (i + 1)

/-- Smurfing ring ids. -/
def smurfRingId (i : Nat) : String := "RING_SMURF_" ++ pad3 (i + 1)

/-- Shell ring ids. -/
def shellRingId (i : Nat) : String := "RING_SHELL_" ++ pad3 (i + 1)

/-- Process cycles: every member assignment overwrites the map. -/
def procCycles : List (List String) → Nat → RM → List FraudRing × RM
  | [], _, m => ([], m)
  | c :: rest, i, m =>
    let m2 := c.foldl (fun acc a => setRM acc a (cycleRingId i)) m
    let ring : FraudRing :=
      ⟨cycleRingId i, c, c.headD "", "cycle", min (90 + 2 * (c.length : ℤ)) 100⟩
    let out := procCycles rest (i + 1) m2
    (ring :: out.1, out.2)

/-- Process smurfing patterns: members are the centre followed by the
pattern members; assignments never overwrite. -/
def procSmurfs : List SmurfPattern → Nat → RM → List FraudRing × RM
  | [], _, m => ([], m)
  | p :: rest, i, m =>
    let members := p.center :: p.members
    let m2 := members.foldl (fun acc a => setAbsent acc a (smurfRingId i)) m
    let ring : FraudRing :=
      ⟨smurfRingId i, members, p.center, ptypeStr p.ptype,
        if p.ptype = .fan_in_out then 95 else 85⟩
    let out := procSmurfs rest (i + 1) m2
    (ring :: out.1, out.2)

/-- Process shell chains: a chain is skipped when more than half of its
members already belong to a ring (`overlap > len·0.5  ⟺  len < 2·overlap`);
the ring index advances even on skips (`enumerate`). -/
def procShells : List (List String) → Nat → RM → List FraudRing × RM
  | [], _, m => ([], m)
  | chain :: rest, i, m =>
    let overlap := (chain.filter (fun a => (m a).isSome)).length
    if chain.length < 2 * overlap then procShells rest (i + 1) m
    else
      let m2 := chain.foldl (fun acc a => setAbsent acc a (shellRingId i)) m
      let ring : FraudRing :=
        ⟨shellRingId i, chain, chain.headD "", "layered_shell", 80⟩
      let out := procShells rest (i + 1) m2
      (ring :: out.1, out.2)

/-- Ring creation in orchestrator order: cycles, smurfing patterns, shell
chains. -/
def buildRings (cycles : List (List String)) (smurfs : List SmurfPattern)
    (shells : List (List String)) : List FraudRing × RM :=
  let oc := procCycles cycles 0 (fun _ => none)
  let os := procSmurfs smurfs 0 oc.2
  let oh := procShells shells 0 os.2
  (oc.1 ++ os.1 ++ oh.1, oh.2)

/-- Prefix check on character lists. -/
def pfxChk : List Char → List Char → Bool
  | [], _ => true
  | _ :: _, [] => false
  | a :: as, b :: bs => a == b && pfxChk as bs

/-- Substring check on character lists. -/
def subChk (n : List Char) : List Char → Bool
  | [] => pfxChk n []
  | c :: hs => pfxChk n (c :: hs) || subChk n hs

/-- Python `needle in hay` on strings. -/
def containsSub (hay needle : String) : Bool := subChk needle.data hay.data

/-- The ring-membership labels of an account, over all rings in order. -/
def ringPatterns (rings : List FraudRing) (a : String) : List String :=
  rings.flatMap (fun r =>
    if r.member_accounts.contains a then
      if r.pattern_type == "cycle" then ["cycle_member"]
      else if containsSub r.pattern_type "fan_" then
        if (r.member_accounts.headD "") == a then [r.pattern_type ++ "_center"]
        else [r.pattern_type ++ "_member"]
      else if r.pattern_type == "layered_shell" then ["shell_member"]
      else []
    else [])

/-- All labels of an account: ring labels, then the mule label, then the
rapid-exit label. -/
def accountPatterns (rings : List FraudRing) (mule : String → Option (ℤ × String))
    (rapid : String → Bool) (a : String) : List String :=
  ringPatterns rings a ++
    (match mule a with
      | some mv => ["mule_collector_risk:" ++ mv.2]
      | none => []) ++
    (if rapid a then ["rapid_exit_detected"] else [])

/-- The high-priority label test of the fusion step: any label containing
`center`, `cycle`, `shell`, `rapid_exit` or `CRITICAL` as a substring. -/
def highPriority (pats : List String) : Bool :=
  pats.any (fun p => containsSub p "center") ||
  pats.any (fun p => containsSub p "cycle") ||
  pats.any (fun p => containsSub p "shell") ||
  pats.any (fun p => containsSub p "rapid_exit") ||
  pats.any (fun p => containsSub p "CRITICAL")

/-- `base_final = max(sender_score, gnn_val, receiver_score)` where
`receiver_score = max(s1, mule_score, 95 if rapid else 0)`. -/
def baseScore (ml gnn s1 : String → ℤ) (mule : String → Option (ℤ × String))
    (rapid : String → Bool) (a : String) : ℤ :=
  let muleVal := match mule a with | some mv => mv.1 | none => 0
  max (ml a) (max (gnn a) (max (s1 a) (max muleVal (if rapid a then 95 else 0))))

/-- Score fusion: high-priority labels boost to at least 90; accounts whose
labels include a `fan_out_member` get no floor; any other labelled account
is floored at 65. -/
def fuseFinal (pats : List String) (base : ℤ) : ℤ :=
  if pats.isEmpty then base
  else if highPriority pats then max base 90
  else if pats.any (fun p => containsSub p "fan_out_member") then base
  else max base 65

/-- A suspicious-account record (mule/rapid metadata omitted). -/
structure SuspAcct where
  account_id : String
  suspicion_score : ℤ
  detected_patterns : List String
  ring_id : Option String
deriving DecidableEq, Repr

/-- Iteration order over the batch's account set: first appearance stands
in for Python's set order (deterministic within a process). -/
def allAccountsOrder (df : Df) : List String :=
  uniqFirst (df.flatMap (fun t => [t.sender, t.receiver]))

/-- Stable descending sort by score (Python `list.sort` with
`reverse=True`). -/
def sortByScoreDesc (l : List SuspAcct) : List SuspAcct :=
  sortLe (fun x y => decide (y.suspicion_score ≤ x.suspicion_score)) l

/-- The fused final score of one account. -/
def finalScore (rings : List FraudRing) (ml gnn s1 : String → ℤ)
    (mule : String → Option (ℤ × String)) (rapid : String → Bool)
    (a : String) : ℤ :=
  fuseFinal (accountPatterns rings mule rapid a) (baseScore ml gnn s1 mule rapid a)

/-- The suspicious-accounts report: every account whose fused score
reaches the 55 threshold, sorted by score descending. -/
def suspList (df : Df) (rings : List FraudRing) (rm : RM) (ml gnn s1 : String → ℤ)
    (mule : String → Option (ℤ × String)) (rapid : String → Bool) :
    List SuspAcct :=
  sortByScoreDesc ((allAccountsOrder df).filterMap (fun a =>
    let final := finalScore rings ml gnn s1 mule rapid a
    if 55 ≤ final then
      some ⟨a, final, uniqFirst (accountPatterns rings mule rapid a), rm a⟩
    else none))

/-- `analyze_transactions` (aggregation region): runs the three structural
detectors on the batch, builds rings, and fuses per-account scores. -/
def analyze_transactions (df : Df) (ml gnn s1 : String → ℤ)
    (mule : String → Option (ℤ × String)) (rapid : String → Bool) :
    List FraudRing × List SuspAcct :=
  let br := buildRings (detect_cycles_dcfr df) (detect_smurfing df) (detect_shells df)
  (br.1, suspList df br.1 br.2 ml gnn s1 mule rapid)

/-! ### Claim-side and spec-side auxiliary definitions -/

/-- The flow-validation rule in the words of the specification: on the
first hop the largest transaction between the first two nodes; on each
subsequent hop the earliest transaction whose amount lies in
`[0.8·last, 1.05·last]` and whose timestamp is at least the previous one;
reject as soon as no such transaction exists. -/
def specShellFlowGo (df : Df) : List String → Option (ℤ × ℤ) → Bool
  | [], _ => true
  | [_], _ => true
  | a :: b :: rest, st =>
    match st with
    | none =>
      match maxAmtTxn (txnsBetween df a b) with
      | none => false
      | some t => specShellFlowGo df (b :: rest) (some (t.amount, t.ts))
    | some (la, lt) =>
      match earliestTxn ((txnsBetween df a b).filter
          (fun t => lt ≤ t.ts && 4 * la ≤ 5 * t.amount && 20 * t.amount ≤ 21 * la)) with
      | none => false
      | some t => specShellFlowGo df (b :: rest) (some (t.amount, t.ts))

/-- Flow validation as the specification words it. -/
def specShellFlow (chain : List String) (df : Df) : Bool :=
  specShellFlowGo df chain none

/-- The anomaly test as claim C8 words it: an inclusive disjunction of
`recv_std < 10 ∧ amount > 100` and `amount ≥ recv_mean + 3·recv_std`
(the latter embedded exactly as in `anomalousB`). -/
def anomalousDisj (amts : List ℤ) (a : ℤ) : Bool :=
  (recvStdLt10 amts && decide (100 < a)) ||
    (decide (zSum amts ≤ (amts.length : ℤ) * a) &&
      decide (9 * devSq amts ≤ ((amts.length : ℤ) - 1) * ((amts.length : ℤ) * a - zSum amts) ^ 2))

/-- Index of the last list containing `a`. -/
def lastIdxMem (a : String) : List (List String) → Option Nat
  | [] => none
  | l :: rest =>
    match lastIdxMem a rest with
    | some j => some (j + 1)
    | none => if a ∈ l then some 0 else none

/-- Index of the first list containing `a`. -/
def firstIdxMem (a : String) : List (List String) → Option Nat
  | [] => none
  | l :: rest => if a ∈ l then some 0 else (firstIdxMem a rest).map (· + 1)

/-- Total number of transactions an account participates in. -/
def txnCountOf (df : Df) (v : String) : Nat :=
  (sentTxns df v).length + (recvTxns df v).length

/-! ### Concrete instances used by witnesses and counterexamples -/

/-- The all-zero score map. -/
def zeroScores : String → ℤ := fun _ => 0

/-- No mule-collector output. -/
def noMule : String → Option (ℤ × String) := fun _ => none

/-- No rapid-exit alerts. -/
def noRapid : String → Bool := fun _ => false

/-- Ten transactions from the single sender `S` to `R` spread over two
hours: enough rows to trigger the transaction-count fan-in filter with
only one distinct counterparty. -/
def c1df : Df := (List.range 10).map (fun i => ⟨i, "S", "R", 100, 720 * i⟩)

/-- Ten transactions from ten distinct senders to `R` within two hours: a
genuine fan-in. -/
def w1df : Df := (List.range 10).map (fun i => ⟨i, "S" ++ natStr i, "R", 100, 720 * i⟩)

/-- A value-preserving three-hour triangle `A → B → C → A`. -/
def w2df : Df := [⟨0, "A", "B", 100, 0⟩, ⟨1, "B", "C", 100, 3600⟩, ⟨2, "C", "A", 100, 7200⟩]

/-- Both orientations of a triangle on `{A, B, C}`: two simple cycles over
the same member set. -/
def c3df : Df :=
  [⟨0, "A", "B", 100, 0⟩, ⟨1, "B", "C", 100, 0⟩, ⟨2, "C", "A", 100, 0⟩,
   ⟨3, "A", "C", 100, 0⟩, ⟨4, "C", "B", 100, 0⟩, ⟨5, "B", "A", 100, 0⟩]

/-- A six-node line `A → B → C → D → E → F` whose intermediate `B` has
four transactions (two parallel `A → B` rows). -/
def c4df : Df :=
  [⟨0, "A", "B", 100, 0⟩, ⟨1, "A", "B", 50, 0⟩, ⟨2, "A", "B", 60, 0⟩,
   ⟨3, "B", "C", 100, 600⟩, ⟨4, "C", "D", 100, 1200⟩,
   ⟨5, "D", "E", 100, 1800⟩, ⟨6, "E", "F", 100, 2400⟩]

/-- Two triangles sharing the account `X`. -/
def c5df : Df :=
  [⟨0, "A", "B", 100, 0⟩, ⟨1, "B", "X", 100, 0⟩, ⟨2, "X", "A", 100, 0⟩,
   ⟨3, "C", "D", 100, 0⟩, ⟨4, "D", "X", 100, 0⟩, ⟨5, "X", "C", 100, 0⟩]

/-- A fan-out from `F` to ten distinct receivers within 50 minutes with
varied amounts. -/
def c6df : Df := (List.range 10).map (fun i =>
  ⟨i, "F", "M" ++ natStr i, if i == 0 then 200 else 100, 300 * i⟩)

/-- `U` receives 50 twice and forwards 50 within the exit window; the
receive-side standard deviation is 0, so `recv_mean + 3·recv_std = 50` is
attained while the `amount > 100` test fails. -/
def c8df : Df :=
  [⟨0, "S1", "U", 50, 0⟩, ⟨1, "S2", "U", 50, 3600⟩, ⟨2, "U", "D", 50, 4000⟩]

/-- `U` receives an anomalous 200 and forwards 190 to a fresh destination
after 30 minutes. -/
def w8df : Df := [⟨0, "S", "U", 200, 0⟩, ⟨1, "U", "D", 190, 1800⟩]

/-- A single transaction: `Z` belongs to no ring. -/
def c9df : Df := [⟨0, "P", "Z", 100, 0⟩]

/-- A GNN score map that differs from the all-zero draw at `Z`. -/
def gnnAlt : String → ℤ := fun a => if a == "Z" then 60 else 0

/-- Five distinct senders pay `R` within one day. -/
def w10df : Df := (List.range 5).map (fun i => ⟨i, "S" ++ natStr i, "R", 500, 3600 * i⟩)

/-! ### General lemmas about the list helpers -/

theorem mem_uniqFirstAux :
    ∀ (seen l : List String) (a : String),
      a ∈ uniqFirstAux seen l ↔ a ∈ l ∧ ¬ a ∈ seen
  | seen, [], a => by simp [uniqFirstAux]
  | seen, x :: xs, a => by
    rw [uniqFirstAux]
    by_cases hx : seen.contains x
    · rw [if_pos hx, mem_uniqFirstAux seen xs a]
      simp only [List.mem_cons]
      constructor
      · tauto
      · rintro ⟨ha | ha, hs⟩
        · subst ha; exact absurd (List.mem_of_elem_eq_true hx) hs
        · exact ⟨ha, hs⟩
    · rw [if_neg hx]
      simp only [List.mem_cons, mem_uniqFirstAux (x :: seen) xs a]
      by_cases hax : a = x
      · subst hax
        constructor
        · intro _; exact ⟨Or.inl rfl, fun h => hx (List.elem_eq_true_of_mem h)⟩
        · intro _; exact Or.inl rfl
      · simp [hax]

theorem mem_uniqFirst (l : List String) (a : String) : a ∈ uniqFirst l ↔ a ∈ l := by
  rw [uniqFirst, mem_uniqFirstAux]; simp

theorem uniqFirstAux_nodup : ∀ (seen l : List String), (uniqFirstAux seen l).Nodup
  | seen, [] => by rw [uniqFirstAux]; exact List.nodup_nil
  | seen, x :: xs => by
    rw [uniqFirstAux]
    by_cases hx : seen.contains x
    · simp only [hx, if_true]; exact uniqFirstAux_nodup seen xs
    · simp only [hx, if_false]
      refine List.nodup_cons.mpr ⟨?_, uniqFirstAux_nodup (x :: seen) xs⟩
      intro hmem
      exact ((mem_uniqFirstAux _ _ _).mp hmem).2 (List.mem_cons_self x seen)

theorem uniqFirst_nodup (l : List String) : (uniqFirst l).Nodup := uniqFirstAux_nodup [] l

theorem uniqFirst_eq_nil_iff (l : List String) : uniqFirst l = [] ↔ l = [] := by
  cases l with
  | nil => simp [uniqFirst, uniqFirstAux]
  | cons x xs =>
    rw [uniqFirst, uniqFirstAux]
    simp [List.contains]

theorem mem_insSorted (le : α → α → Bool) (x : α) :
    ∀ (l : List α) (a : α), a ∈ insSorted le x l ↔ a = x ∨ a ∈ l
  | [], a => by simp [insSorted]
  | y :: ys, a => by
    rw [insSorted]
    by_cases h : le x y = true
    · simp [h]
    · simp only [Bool.not_eq_true] at h
      simp only [h, Bool.false_eq_true, if_false, List.mem_cons,
        mem_insSorted le x ys a]
      tauto

theorem mem_sortLe (le : α → α → Bool) :
    ∀ (l : List α) (a : α), a ∈ sortLe le l ↔ a ∈ l
  | [], a => Iff.rfl
  | x :: xs, a => by
    rw [sortLe, mem_insSorted, mem_sortLe le xs a]; simp

theorem insSorted_perm (le : α → α → Bool) (x : α) :
    ∀ l : List α, (insSorted le x l).Perm (x :: l)
  | [] => List.Perm.refl _
  | y :: ys => by
    rw [insSorted]
    by_cases h : le x y = true
    · simp [h]
    · simp only [Bool.not_eq_true] at h
      simp only [h, Bool.false_eq_true, if_false]
      exact ((insSorted_perm le x ys).cons y).trans (List.Perm.swap x y ys)

theorem sortLe_perm (le : α → α → Bool) : ∀ l : List α, (sortLe le l).Perm l
  | [] => List.Perm.refl _
  | x :: xs => by
    rw [sortLe]
    exact (insSorted_perm le x _).trans ((sortLe_perm le xs).cons x)

theorem sortLe_nodup (le : α → α → Bool) (l : List α) (h : l.Nodup) :
    (sortLe le l).Nodup :=
  (sortLe_perm le l).nodup_iff.mpr h
/-! ### Claim C1 — smurfing counterparty threshold -/

/-- C1, counterexample: the fan-in filter counts transactions, not
distinct senders.  On `c1df` (ten transactions from one sender within two
hours) the detector emits a fan-in pattern with a single counterparty, and
the orchestrator creates a smurfing ring with only two members — the claim
requires at least ten counterparties and eleven members. -/
theorem C1_counterexample :
    (∃ p ∈ detect_smurfing c1df, p.members.length < 10) ∧
    (∃ r ∈ (analyze_transactions c1df zeroScores zeroScores zeroScores noMule noRapid).1,
      r.pattern_type = "fan_in" ∧ r.member_accounts.length < 11) := by
  decide

/-! ### Claim C3 — deduplication and cap of cycle enumeration -/

/-- C3, counterexample: the cycle detector invoked by the orchestrator
(`detectors/circular_fund_routing.py`) performs no deduplication by member
set: on `c3df` (both orientations of one triangle) it returns two cycles
with the same sorted member tuple. -/
theorem C3_counterexample :
    (detect_cycles_dcfr c3df).length = 2 ∧
    ¬ ((detect_cycles_dcfr c3df).map (fun c => sortLe strLe c)).Nodup := by
  decide

/-! ### Claim C5 — ring-id assignment order -/

/-- C5, counterexample: cycle assignments overwrite the account→ring map,
so the account `X`, which belongs to both cycle rings of `c5df`, is
reported with the id of the *last* cycle ring containing it, not the
first. -/
theorem C5_counterexample :
    (analyze_transactions c5df zeroScores zeroScores zeroScores noMule noRapid).1.map
        (·.ring_id) = ["RING_CYCLE_001", "RING_CYCLE_002"] ∧
    (∀ r ∈ (analyze_transactions c5df zeroScores zeroScores zeroScores noMule noRapid).1,
      "X" ∈ r.member_accounts) ∧
    ((analyze_transactions c5df zeroScores zeroScores zeroScores noMule noRapid).2.filter
        (fun s => s.account_id == "X")).map (·.ring_id) = [some "RING_CYCLE_002"] := by
  decide

/-! ### Claim C6 — score fusion floors -/

/-- C6, counterexample: `M1` is a member of the fan-out ring of `c6df`,
carries no high-priority label, yet its final score is 0 — the claimed
65 floor for ring members does not apply to `fan_out_member` labels, and
`M1` is absent from the report. -/
theorem C6_counterexample :
    (∃ r ∈ (analyze_transactions c6df zeroScores zeroScores zeroScores noMule noRapid).1,
      "M1" ∈ r.member_accounts) ∧
    finalScore (analyze_transactions c6df zeroScores zeroScores zeroScores noMule noRapid).1
      zeroScores zeroScores zeroScores noMule noRapid "M1" = 0 ∧
    (∀ s ∈ (analyze_transactions c6df zeroScores zeroScores zeroScores noMule noRapid).2,
      s.account_id ≠ "M1") := by
  decide

/-! ### Claim C8 — rapid inflow/exit trigger -/

/-- C8, counterexample: on `c8df` the first inbound of `U` satisfies the
claim's disjunctive anomaly test (`amount ≥ recv_mean + 3·recv_std`, since
the receive-side deviation is 0), its exit window satisfies both trigger
ratios, yet the detector raises no alert: in the code the
`mean + 3·std` test is only reached when `recv_std ≥ 10`. -/
theorem C8_counterexample :
    anomalousDisj ((recvTxns c8df "U").map (·.amount)) 50 = true ∧
    rapidExits c8df "U" ⟨0, "S1", "U", 50, 0⟩ ≠ [] ∧
    passOK 50 (zSum ((rapidExits c8df "U" ⟨0, "S1", "U", 50, 0⟩).map (·.amount))) = true ∧
    (rapidExits c8df "U" ⟨0, "S1", "U", 50, 0⟩).length ≤
      2 * (unknownExits c8df "U" (rapidExits c8df "U" ⟨0, "S1", "U", 50, 0⟩)).length ∧
    rapid_inflow_exit_detector "U" c8df = [] := by
  decide

/-! ### Claim C9 — determinism of the pipeline -/

/-- C9, counterexample: the GCN layer draws fresh unseeded random weights
on every run, so its score map is a per-run draw.  Two draws that differ
at the ring-free account `Z` (both within the score range) change the
suspicious-accounts report, while the fraud rings stay identical. -/
theorem C9_counterexample :
    (analyze_transactions c9df zeroScores zeroScores zeroScores noMule noRapid).2 ≠
      (analyze_transactions c9df zeroScores gnnAlt zeroScores noMule noRapid).2 ∧
    (analyze_transactions c9df zeroScores zeroScores zeroScores noMule noRapid).1 =
      (analyze_transactions c9df zeroScores gnnAlt zeroScores noMule noRapid).1 := by
  decide

/-- C9, amended: with the per-run GNN draw made explicit, the embedded
pipeline is a pure function — the fraud rings never depend on the draw,
and runs with equal draws produce identical output. -/
theorem C9_amended (df : Df) (ml s1 : String → ℤ)
    (mule : String → Option (ℤ × String)) (rapid : String → Bool)
    (g1 g2 : String → ℤ) :
    (analyze_transactions df ml g1 s1 mule rapid).1 =
      (analyze_transactions df ml g2 s1 mule rapid).1 ∧
    (g1 = g2 →
      analyze_transactions df ml g1 s1 mule rapid =
        analyze_transactions df ml g2 s1 mule rapid) := by
  refine ⟨rfl, fun h => by rw [h]⟩

/-- C9, witness: the amended theorem applied at the concrete batch and two
equal zero draws. -/
theorem C9_witness :
    analyze_transactions c9df zeroScores zeroScores zeroScores noMule noRapid =
      analyze_transactions c9df zeroScores zeroScores zeroScores noMule noRapid :=
  (C9_amended c9df zeroScores zeroScores noMule noRapid zeroScores zeroScores).2 rfl

/-! ### Claim C10 — mule collector with a young batch -/

/-- C10: when every transaction lies within 7 days of the batch's latest
timestamp, the historical window is empty, every candidate receiver's
recent senders are all new (`new_sender_ratio = 1`), and the ≥ 0.7
new-sender gate never rejects. -/
theorem C10_young_batch (df : Df)
    (h : ∀ t ∈ df, latestTs df - 604800 ≤ t.ts) :
    historicalDf df = [] ∧
    ∀ r ∈ muleCandidates df,
      (newSenders df r).length = (recentSenders df r).length ∧
      muleGateRejects df r = false := by
  have hh : historicalDf df = [] := by
    rw [historicalDf, List.filter_eq_nil_iff]
    intro t ht
    simp only [decide_eq_true_eq, not_lt]
    exact h t ht
  refine ⟨hh, fun r _ => ?_⟩
  have hns : newSenders df r = recentSenders df r := by
    rw [newSenders, hh]
    simp [List.filter_eq_self]
  refine ⟨by rw [hns], ?_⟩
  rw [muleGateRejects, hns]
  simp only [decide_eq_false_iff_not, not_lt]
  omega

/-- C10, witness: five fresh senders within one day; the candidate `R`
passes the gate with ratio 1. -/
theorem C10_witness :
    historicalDf w10df = [] ∧
    (newSenders w10df "R").length = (recentSenders w10df "R").length ∧
    muleGateRejects w10df "R" = false :=
  ⟨(C10_young_batch w10df (by decide)).1,
    (C10_young_batch w10df (by decide)).2 "R" (by decide)⟩

/-! ### Claim C2 — temporal validation of cycles -/

theorem foldl_earliest_some :
    ∀ (xs : Df) (b : Txn),
      ∃ t, xs.foldl
        (fun acc u =>
          match acc with
          | none => some u
          | some v => if u.ts < v.ts then some u else some v) (some b) = some t := by
  intro xs
  induction xs with
  | nil => intro b; exact ⟨b, rfl⟩
  | cons x xs ih =>
    intro b
    rw [List.foldl_cons]
    by_cases h : x.ts < b.ts
    · simpa [h] using ih x
    · simpa [h] using ih b

theorem earliestTxn_isSome_of_ne_nil (l : Df) (h : l ≠ []) :
    ∃ t, earliestTxn l = some t := by
  cases l with
  | nil => exact absurd rfl h
  | cons x xs =>
    rw [earliestTxn, List.foldl_cons]
    exact foldl_earliest_some xs x

theorem earliestTxn_eq_none_iff (l : Df) : earliestTxn l = none ↔ l = [] := by
  constructor
  · intro h
    by_contra hne
    obtain ⟨t, ht⟩ := earliestTxn_isSome_of_ne_nil l hne
    rw [h] at ht
    exact Option.noConfusion ht
  · intro h; subst h; rfl

theorem selEarliest_length (df : Df) :
    ∀ (es : List (String × String)) (sel : List Txn),
      selEarliest df es = some sel → sel.length = es.length
  | [], sel => by
    rw [selEarliest]
    intro h
    cases h
    rfl
  | e :: rest, sel => by
    rw [selEarliest]
    cases h1 : earliestTxn (txnsBetween df e.1 e.2) with
    | none => intro h; exact Option.noConfusion h
    | some t =>
      cases h2 : selEarliest df rest with
      | none => intro h; exact Option.noConfusion h
      | some sel2 =>
        intro h
        cases h
        simp [selEarliest_length df rest sel2 h2]

theorem cycleEdges_length (c : List String) : (cycleEdges c).length = c.length := by
  rw [cycleEdges, List.length_zip, List.length_rotate, Nat.min_self]

/-- The imperative early-return structure of `validate_cycle_temporal`,
characterised: a non-empty candidate is accepted iff every edge has a
transaction and the earliest-per-edge selection satisfies both the 72-hour
span bound and the ≤ 0.30 decay bound (`1 − min/max ≤ 0.3`, cross-
multiplied, guarded by a positive maximum as in the source). -/
theorem validate_cycle_temporal_iff (df : Df) (c : List String) (hc : c ≠ []) :
    validate_cycle_temporal c df = true ↔
      ∃ sel, edgeSel df c = some sel ∧
        zMax (sel.map (·.ts)) - zMin (sel.map (·.ts)) ≤ 259200 ∧
        (0 < zMax (sel.map (·.amount)) →
          10 * (zMax (sel.map (·.amount)) - zMin (sel.map (·.amount))) ≤
            3 * zMax (sel.map (·.amount))) := by
  rw [validate_cycle_temporal]
  cases hsel : edgeSel df c with
  | none =>
    simp only []
    constructor
    · intro h; exact Bool.noConfusion h
    · rintro ⟨sel, hs, -⟩
      exact Option.noConfusion hs
  | some sel =>
    have hlen : sel.length = c.length := by
      have h2 := selEarliest_length df (cycleEdges c) sel hsel
      rw [cycleEdges_length] at h2
      exact h2
    have hne : sel ≠ [] := by
      intro h0
      rw [h0] at hlen
      exact hc (List.length_eq_zero.mp hlen.symm)
    have hamts : (sel.map (·.amount)).isEmpty = false := by
      cases sel with
      | nil => exact absurd rfl hne
      | cons a b => rfl
    simp only [hamts]
    by_cases h1 : 259200 < zMax (sel.map (·.ts)) - zMin (sel.map (·.ts))
    · rw [if_pos h1]
      constructor
      · intro h; exact Bool.noConfusion h
      · rintro ⟨sel2, hs2, hspan, -⟩
        cases hs2
        omega
    · rw [if_neg h1]
      simp only [Bool.false_eq_true, if_false]
      by_cases h2 : 0 < zMax (sel.map (·.amount)) ∧
          3 * zMax (sel.map (·.amount)) <
            10 * (zMax (sel.map (·.amount)) - zMin (sel.map (·.amount)))
      · rw [if_pos (by simp only [Bool.and_eq_true, decide_eq_true_eq]; exact h2)]
        constructor
        · intro h; exact Bool.noConfusion h
        · rintro ⟨sel2, hs2, -, hdecay⟩
          cases hs2
          have := hdecay h2.1
          omega
      · rw [if_neg (by
          simp only [Bool.and_eq_true, decide_eq_true_eq]
          intro hcon
          exact h2 ⟨hcon.1, hcon.2⟩)]
        constructor
        · intro _
          refine ⟨sel, rfl, by omega, fun hmx => ?_⟩
          by_contra hlt
          exact h2 ⟨hmx, by omega⟩
        · intro _; rfl

/-- C2: a candidate cycle is returned by the orchestrator's cycle detector
iff it is an enumerated simple cycle of length 3..5 whose earliest-per-edge
transaction selection exists (every edge carries a transaction) and
satisfies the 72-hour span bound and the 30 % decay bound
(`1 − min/max ≤ 0.3`); violating any of these is rejected. -/
theorem C2_cycle_validation (df : Df) (c : List String) :
    c ∈ detect_cycles_dcfr df ↔
      c ∈ simpleCyclesList (nodesOf df) (edgeB df) ∧
      3 ≤ c.length ∧ c.length ≤ 5 ∧
      ∃ sel, edgeSel df c = some sel ∧
        zMax (sel.map (·.ts)) - zMin (sel.map (·.ts)) ≤ 259200 ∧
        (0 < zMax (sel.map (·.amount)) →
          10 * (zMax (sel.map (·.amount)) - zMin (sel.map (·.amount))) ≤
            3 * zMax (sel.map (·.amount))) := by
  rw [detect_cycles_dcfr, List.mem_filter, List.mem_filter]
  constructor
  · rintro ⟨⟨hmem, hlenb⟩, hval⟩
    simp only [Bool.and_eq_true, decide_eq_true_eq] at hlenb
    have hc : c ≠ [] := by
      intro h; subst h; simp at hlenb
    exact ⟨hmem, hlenb.1, hlenb.2,
      (validate_cycle_temporal_iff df c hc).mp hval⟩
  · rintro ⟨hmem, h3, h5, hex⟩
    have hc : c ≠ [] := by
      intro h; subst h; simp at h3
    exact ⟨⟨hmem, by simp [h3, h5]⟩,
      (validate_cycle_temporal_iff df c hc).mpr hex⟩

/-- C2, witness: the three-hour value-preserving triangle is accepted; the
theorem applied with the explicit per-edge selection. -/
theorem C2_witness : ["A", "B", "C"] ∈ detect_cycles_dcfr w2df :=
  (C2_cycle_validation w2df ["A", "B", "C"]).mpr
    ⟨by decide, by decide, by decide,
      ⟨[⟨0, "A", "B", 100, 0⟩, ⟨1, "B", "C", 100, 3600⟩, ⟨2, "C", "A", 100, 7200⟩],
        by decide, by decide, fun _ => by decide⟩⟩

/-! ### Claim C7 — shell flow validation -/

theorem foldl_maxamt_some :
    ∀ (xs : Df) (b : Txn),
      ∃ t, xs.foldl
        (fun acc u =>
          match acc with
          | none => some u
          | some v => if v.amount < u.amount then some u else some v) (some b) = some t := by
  intro xs
  induction xs with
  | nil => intro b; exact ⟨b, rfl⟩
  | cons x xs ih =>
    intro b
    rw [List.foldl_cons]
    by_cases h : b.amount < x.amount
    · simpa [h] using ih x
    · simpa [h] using ih b

theorem maxAmtTxn_isSome_of_ne_nil (l : Df) (h : l ≠ []) :
    ∃ t, maxAmtTxn l = some t := by
  cases l with
  | nil => exact absurd rfl h
  | cons x xs =>
    rw [maxAmtTxn, List.foldl_cons]
    exact foldl_maxamt_some xs x

/-- The code's two-stage filtering (time window first, then amount band)
selects from the same transaction pool as the specification's single
conjunction. -/
theorem vsf_filter_eq (df : Df) (a b : String) (la lt : ℤ) :
    ((txnsBetween df a b).filter (fun t => decide (lt ≤ t.ts))).filter
        (fun t => decide (4 * la ≤ 5 * t.amount) && decide (20 * t.amount ≤ 21 * la)) =
      (txnsBetween df a b).filter
        (fun t => decide (lt ≤ t.ts) && decide (4 * la ≤ 5 * t.amount) &&
          decide (20 * t.amount ≤ 21 * la)) := by
  rw [List.filter_filter]
  apply List.filter_congr
  intro t _
  cases h1 : decide (lt ≤ t.ts) <;> cases h2 : decide (4 * la ≤ 5 * t.amount) <;>
    cases h3 : decide (20 * t.amount ≤ 21 * la) <;> rfl

/-- C7: `validate_shell_flow` accepts a chain iff the greedy transaction
sequence described by the specification exists — the largest transaction
on the first hop, then on every hop the earliest transaction whose amount
lies in `[0.8·last, 1.05·last]` and whose timestamp is not earlier than
the previous one, rejecting as soon as no such transaction exists. -/
theorem C7_flow_equiv (df : Df) (chain : List String) :
    validate_shell_flow chain df = specShellFlow chain df := by
  rw [validate_shell_flow, specShellFlow]
  generalize hst : (none : Option (ℤ × ℤ)) = st
  clear hst
  induction chain generalizing st with
  | nil => rfl
  | cons a rest ih =>
    cases rest with
    | nil => rfl
    | cons b rest2 =>
      show vsfGo df (a :: b :: rest2) st = specShellFlowGo df (a :: b :: rest2) st
      rw [vsfGo.eq_def, specShellFlowGo.eq_def]
      simp only []
      by_cases hemp : (txnsBetween df a b).isEmpty
      · have hnil : txnsBetween df a b = [] := List.isEmpty_iff.mp hemp
        rw [if_pos hemp]
        cases st with
        | none => rw [hnil]; rfl
        | some p =>
          obtain ⟨la, lt⟩ := p
          rw [hnil]
          rfl
      · rw [if_neg hemp]
        have hne : txnsBetween df a b ≠ [] := fun h0 => hemp (by rw [h0]; rfl)
        cases st with
        | none =>
          obtain ⟨t, ht⟩ := maxAmtTxn_isSome_of_ne_nil _ hne
          rw [ht]
          exact ih _
        | some p =>
          obtain ⟨la, lt⟩ := p
          simp only []
          by_cases h2 : ((txnsBetween df a b).filter (fun t => decide (lt ≤ t.ts))).isEmpty
          · rw [if_pos h2]
            have h2n : (txnsBetween df a b).filter (fun t => decide (lt ≤ t.ts)) = [] :=
              List.isEmpty_iff.mp h2
            have : (txnsBetween df a b).filter
                (fun t => decide (lt ≤ t.ts) && decide (4 * la ≤ 5 * t.amount) &&
                  decide (20 * t.amount ≤ 21 * la)) = [] := by
              rw [← vsf_filter_eq, h2n]
              rfl
            rw [this]
            rfl
          · rw [if_neg h2]
            by_cases h3 : (((txnsBetween df a b).filter (fun t => decide (lt ≤ t.ts))).filter
                (fun t => decide (4 * la ≤ 5 * t.amount) &&
                  decide (20 * t.amount ≤ 21 * la))).isEmpty
            · rw [if_pos h3]
              have h3n := List.isEmpty_iff.mp h3
              rw [vsf_filter_eq] at h3n
              rw [h3n]
              rfl
            · rw [if_neg h3]
              have h3ne := (List.isEmpty_iff (l := _)).not.mp h3
              have h3ne2 : ((txnsBetween df a b).filter (fun t => decide (lt ≤ t.ts))).filter
                  (fun t => decide (4 * la ≤ 5 * t.amount) &&
                    decide (20 * t.amount ≤ 21 * la)) ≠ [] := by
                intro h0
                exact h3 (by rw [h0]; rfl)
              obtain ⟨t, ht⟩ := earliestTxn_isSome_of_ne_nil _ h3ne2
              rw [ht]
              rw [vsf_filter_eq] at ht
              rw [ht]
              exact ih _

/-! ### Claim C4 — shell-chain shape -/

theorem mem_dropLast_of_mem_drop_one (l : List String) (x : String)
    (h : x ∈ (l.drop 1).dropLast) : x ∈ l.dropLast := by
  cases l with
  | nil => simp at h
  | cons a rest =>
    simp only [List.drop_succ_cons, List.drop_zero] at h
    cases rest with
    | nil => simp at h
    | cons b rest2 =>
      rw [List.dropLast_cons₂]
      exact List.mem_cons_of_mem a h

theorem mem_dropLast_cons (p : String) (chain : List String) (x : String)
    (h : x ∈ (p :: chain).dropLast) : x = p ∨ x ∈ chain.dropLast := by
  cases chain with
  | nil => simp at h
  | cons c cs =>
    rw [List.dropLast_cons₂] at h
    rcases List.mem_cons.mp h with h | h
    · exact Or.inl h
    · exact Or.inr h

theorem traceF_allButLast (df : Df) :
    ∀ (fuel : Nat) (chain : List String) (cur : String),
      (∀ x ∈ chain, isOneOne df x = true) →
      ∀ x ∈ (traceF df fuel chain cur).dropLast, isOneOne df x = true
  | 0, chain, cur => by
    intro hch x hx
    exact hch x (List.dropLast_sublist chain |>.subset hx)
  | fuel + 1, chain, cur => by
    intro hch x hx
    rw [traceF] at hx
    cases hsucc : succList df cur with
    | nil =>
      rw [hsucc] at hx
      exact hch x (List.dropLast_sublist chain |>.subset hx)
    | cons s tl =>
      rw [hsucc] at hx
      have hx2 : x ∈ (if isOneOne df s = true then
          (if chain.contains s = true then chain else traceF df fuel (chain ++ [s]) s)
          else chain ++ [s]).dropLast := hx
      by_cases hone : isOneOne df s
      · rw [if_pos hone] at hx2
        by_cases hcon : chain.contains s
        · rw [if_pos hcon] at hx2
          exact hch x (List.dropLast_sublist chain |>.subset hx2)
        · rw [if_neg hcon] at hx2
          refine traceF_allButLast df fuel (chain ++ [s]) s ?_ x hx2
          intro y hy
          rcases List.mem_append.mp hy with hy | hy
          · exact hch y hy
          · rw [List.mem_singleton.mp hy]; exact hone
      · rw [if_neg hone] at hx2
        rw [List.dropLast_concat] at hx2
        exact hch x hx2

theorem traceB_middle (df : Df) :
    ∀ (fuel : Nat) (chain : List String) (cur : String),
      (∀ x ∈ chain.dropLast, isOneOne df x = true) →
      ∀ x ∈ ((traceB df fuel chain cur).drop 1).dropLast, isOneOne df x = true
  | 0, chain, cur => by
    intro hch x hx
    exact hch x (mem_dropLast_of_mem_drop_one chain x hx)
  | fuel + 1, chain, cur => by
    intro hch x hx
    rw [traceB] at hx
    cases hpred : predList df cur with
    | nil =>
      rw [hpred] at hx
      exact hch x (mem_dropLast_of_mem_drop_one chain x hx)
    | cons p tl =>
      rw [hpred] at hx
      have hx2 : x ∈ ((if isOneOne df p = true then
          (if chain.contains p = true then chain else traceB df fuel (p :: chain) p)
          else p :: chain).drop 1).dropLast := hx
      by_cases hone : isOneOne df p
      · rw [if_pos hone] at hx2
        by_cases hcon : chain.contains p
        · rw [if_pos hcon] at hx2
          exact hch x (mem_dropLast_of_mem_drop_one chain x hx2)
        · rw [if_neg hcon] at hx2
          refine traceB_middle df fuel (p :: chain) p ?_ x hx2
          intro y hy
          rcases mem_dropLast_cons p chain y hy with hy | hy
          · rw [hy]; exact hone
          · exact hch y hy
      · rw [if_neg hone] at hx2
        simp only [List.drop_succ_cons, List.drop_zero] at hx2
        exact hch x hx2

theorem shellsGo_mem (df : Df) :
    ∀ (cands visited : List String) (chain : List String),
      (∀ v ∈ cands, isOneOne df v = true) →
      chain ∈ shellsGo df cands visited →
      4 ≤ chain.length ∧ validate_shell_flow chain df = true ∧
        ∀ x ∈ (chain.drop 1).dropLast, isOneOne df x = true
  | [], visited, chain => by
    intro _ h
    rw [shellsGo] at h
    exact absurd h (List.not_mem_nil chain)
  | v :: vs, visited, chain => by
    intro hc h
    rw [shellsGo] at h
    by_cases hvis : visited.contains v
    · rw [if_pos hvis] at h
      exact shellsGo_mem df vs visited chain (fun u hu => hc u (List.mem_cons_of_mem v hu)) h
    · rw [if_neg hvis] at h
      set cf := traceF df ((nodesOf df).length + 1) [v] v with hcf
      set ch0 := traceB df ((nodesOf df).length + 1) cf v with hch0
      have hrec := shellsGo_mem df vs
        (visited ++ ch0.filter (fun x => isOneOne df x && x ≠ v))
        chain (fun u hu => hc u (List.mem_cons_of_mem v hu))
      by_cases hg : (decide (4 ≤ ch0.length) && validate_shell_flow ch0 df) = true
      · rw [if_pos hg] at h
        rcases List.mem_cons.mp h with h | h
        · subst h
          have hg2 := hg
          simp only [Bool.and_eq_true, decide_eq_true_eq] at hg2
          refine ⟨hg2.1, hg2.2, ?_⟩
          have hone : isOneOne df v = true := hc v (List.mem_cons_self v vs)
          have hmidF : ∀ x ∈ cf.dropLast, isOneOne df x = true := by
            rw [hcf]
            exact traceF_allButLast df _ [v] v
              (fun y hy => by rw [List.mem_singleton.mp hy]; exact hone)
          exact traceB_middle df _ cf v hmidF
        · exact hrec h
      · rw [if_neg hg] at h
        exact hrec h

/-- C4, counterexample: `detect_shells` imposes no upper length bound and
selects intermediates by unit in/out-degree, not by transaction count: on
`c4df` it returns a six-node chain whose intermediate `B` participates in
four transactions. -/
theorem C4_counterexample :
    ∃ chain ∈ detect_shells c4df,
      5 < chain.length ∧ ∃ v ∈ (chain.drop 1).dropLast, 3 < txnCountOf c4df v := by
  decide

/-- C4, amended: every chain returned by the shell-chain detector has at
least four nodes (there is no upper bound), passes flow validation, and
every node other than the first and the last has exactly one distinct
predecessor and one distinct successor in the aggregated graph (its total
transaction count is unconstrained). -/
theorem C4_amended (df : Df) (chain : List String)
    (h : chain ∈ detect_shells df) :
    4 ≤ chain.length ∧ validate_shell_flow chain df = true ∧
      ∀ x ∈ (chain.drop 1).dropLast, isOneOne df x = true := by
  rw [detect_shells] at h
  refine shellsGo_mem df _ [] chain ?_ h
  intro v hv
  exact (List.mem_filter.mp hv).2

/-- C4, witness: the amended theorem applied to the six-node chain of
`c4df` and its intermediate `B`. -/
theorem C4_witness :
    4 ≤ (["A", "B", "C", "D", "E", "F"] : List String).length ∧
    validate_shell_flow ["A", "B", "C", "D", "E", "F"] c4df = true ∧
    isOneOne c4df "B" = true :=
  ⟨(C4_amended c4df ["A", "B", "C", "D", "E", "F"] (by decide)).1,
    (C4_amended c4df ["A", "B", "C", "D", "E", "F"] (by decide)).2.1,
    (C4_amended c4df ["A", "B", "C", "D", "E", "F"] (by decide)).2.2 "B" (by decide)⟩

/-! ### Claim C8 — amended characterisation -/

/-- C8, amended: an alert for an inbound exists iff the code's conditional
anomaly test holds (`amount > 100` when `recv_std < 10`, else
`amount ≥ recv_mean + 3·recv_std`), the 24-hour exit window is non-empty,
`passthrough ≥ 0.8` and `new_dest_ratio ≥ 0.5`; the risk is `CRITICAL`
exactly when the first exit is strictly within 60 minutes; and the
detector's alert list consists exactly of the per-inbound alerts of the
account's received transactions. -/
theorem C8_amended (df : Df) (a : String) (t : Txn) :
    ((rapid_alert_for df a t).isSome ↔
      anomalousB ((recvTxns df a).map (·.amount)) t.amount = true ∧
      rapidExits df a t ≠ [] ∧
      passOK t.amount (zSum ((rapidExits df a t).map (·.amount))) = true ∧
      (rapidExits df a t).length ≤ 2 * (unknownExits df a (rapidExits df a t)).length) ∧
    (∀ al, rapid_alert_for df a t = some al →
      (al.risk = "CRITICAL" ↔ zMin ((rapidExits df a t).map (·.ts)) - t.ts < 3600)) ∧
    (∀ al, al ∈ rapid_inflow_exit_detector a df ↔
      ∃ u ∈ (acctSorted df a).filter (fun x => x.receiver == a),
        rapid_alert_for df a u = some al) := by
  refine ⟨?_, ?_, ?_⟩
  · rw [rapid_alert_for]
    by_cases h1 : anomalousB ((recvTxns df a).map (·.amount)) t.amount
    · rw [if_pos h1]
      by_cases h2 : (rapidExits df a t).isEmpty
      · have h2n : rapidExits df a t = [] := List.isEmpty_iff.mp h2
        simp [h2, h2n]
      · rw [if_neg h2]
        have h2n : rapidExits df a t ≠ [] := fun h0 => h2 (by rw [h0]; rfl)
        by_cases h3 : (passOK t.amount (zSum ((rapidExits df a t).map (·.amount))) &&
            decide ((rapidExits df a t).length ≤
              2 * (unknownExits df a (rapidExits df a t)).length)) = true
        · rw [if_pos h3]
          simp only [Bool.and_eq_true, decide_eq_true_eq] at h3
          simp [h1, h2n, h3.1, h3.2]
        · rw [if_neg h3]
          simp only [Bool.and_eq_true, decide_eq_true_eq] at h3
          simp only [Option.isSome_none, Bool.false_eq_true, false_iff]
          intro hcon
          exact h3 ⟨hcon.2.2.1, hcon.2.2.2⟩
    · rw [if_neg h1]
      simp only [Option.isSome_none, Bool.false_eq_true, false_iff]
      intro hcon
      exact h1 hcon.1
  · intro al hal
    rw [rapid_alert_for] at hal
    by_cases h1 : anomalousB ((recvTxns df a).map (·.amount)) t.amount
    · rw [if_pos h1] at hal
      by_cases h2 : (rapidExits df a t).isEmpty
      · rw [if_pos h2] at hal
        exact Option.noConfusion hal
      · rw [if_neg h2] at hal
        by_cases h3 : (passOK t.amount (zSum ((rapidExits df a t).map (·.amount))) &&
            decide ((rapidExits df a t).length ≤
              2 * (unknownExits df a (rapidExits df a t)).length)) = true
        · rw [if_pos h3] at hal
          cases hal
          by_cases h4 : zMin ((rapidExits df a t).map (·.ts)) - t.ts < 3600
          · simp [h4]
          · simp only [if_neg h4]
            constructor
            · intro hq; exact absurd hq (by decide)
            · intro hq; exact absurd hq h4
        · rw [if_neg h3] at hal
          exact Option.noConfusion hal
    · rw [if_neg h1] at hal
      exact Option.noConfusion hal
  · intro al
    rw [rapid_inflow_exit_detector, List.mem_filterMap]

/-- C8, witness: on `w8df` the amended characterisation yields an alert
for the 200 inbound of `U`. -/
theorem C8_witness :
    (rapid_alert_for w8df "U" ⟨0, "S", "U", 200, 0⟩).isSome :=
  (C8_amended w8df "U" ⟨0, "S", "U", 200, 0⟩).1.mpr
    ⟨by decide, by decide, by decide, by decide⟩

/-! ### Claim C5 — amended ring-assignment characterisation -/

theorem foldl_setRM (id : String) :
    ∀ (c : List String) (m : RM) (a : String),
      (c.foldl (fun acc x => setRM acc x id) m) a =
        if a ∈ c then some id else m a
  | [], m, a => by simp
  | x :: xs, m, a => by
    rw [List.foldl_cons, foldl_setRM id xs (setRM m x id) a]
    by_cases hxs : a ∈ xs
    · simp [hxs, List.mem_cons]
    · by_cases hax : a = x
      · subst hax
        simp [hxs, setRM]
      · simp only [List.mem_cons, hax, hxs, or_self, if_false, if_neg hxs]
        rw [setRM]
        simp [show (a == x) = false from beq_eq_false_iff_ne.mpr hax]

theorem foldl_setAbsent (id : String) :
    ∀ (c : List String) (m : RM) (a : String),
      (c.foldl (fun acc x => setAbsent acc x id) m) a =
        if (m a).isNone ∧ a ∈ c then some id else m a
  | [], m, a => by simp
  | x :: xs, m, a => by
    rw [List.foldl_cons, foldl_setAbsent id xs (setAbsent m x id) a]
    by_cases hax : a = x
    · subst hax
      by_cases hma : (m a).isNone
      · have h1 : setAbsent m a id a = some id := by
          rw [setAbsent, if_pos hma, setRM]
          simp
        rw [h1]
        simp only [hma, true_and, List.mem_cons, true_or, if_pos trivial]
        by_cases hxs : a ∈ xs <;> simp [h1]
      · have h1 : setAbsent m a id = m := by
          rw [setAbsent, if_neg hma]
        rw [h1]
        rw [if_neg (fun hcon => hma hcon.1), if_neg (fun hcon => hma hcon.1)]
    · have h1 : setAbsent m x id a = m a := by
        rw [setAbsent]
        by_cases hmx : (m x).isNone
        · rw [if_pos hmx, setRM]
          simp [show (a == x) = false from beq_eq_false_iff_ne.mpr hax]
        · rw [if_neg hmx]
      rw [h1]
      simp [List.mem_cons, hax]

theorem procCycles_map :
    ∀ (cycles : List (List String)) (i : Nat) (m : RM) (a : String),
      (procCycles cycles i m).2 a =
        match lastIdxMem a cycles with
        | some j => some (cycleRingId (i + j))
        | none => m a
  | [], i, m, a => by rw [procCycles, lastIdxMem]
  | c :: rest, i, m, a => by
    rw [procCycles]
    simp only []
    rw [procCycles_map rest (i + 1) _ a, lastIdxMem]
    cases hrest : lastIdxMem a rest with
    | some j =>
      show some (cycleRingId (i + 1 + j)) = some (cycleRingId (i + (j + 1)))
      rw [show i + 1 + j = i + (j + 1) from by omega]
    | none =>
      rw [foldl_setRM]
      by_cases hc : a ∈ c
      · simp only [if_pos hc]
        show some (cycleRingId i) = some (cycleRingId (i + 0))
        rw [Nat.add_zero]
      · simp only [if_neg hc]

theorem procSmurfs_map :
    ∀ (ps : List SmurfPattern) (i : Nat) (m : RM) (a : String),
      (procSmurfs ps i m).2 a =
        if (m a).isSome then m a
        else
          match firstIdxMem a (ps.map (fun p => p.center :: p.members)) with
          | some j => some (smurfRingId (i + j))
          | none => m a
  | [], i, m, a => by
    rw [procSmurfs, List.map_nil, firstIdxMem]
    by_cases h : (m a).isSome
    · rw [if_pos h]
    · rw [if_neg h]
  | p :: rest, i, m, a => by
    rw [procSmurfs]
    simp only [List.map_cons, firstIdxMem]
    rw [procSmurfs_map rest (i + 1) _ a, foldl_setAbsent]
    cases hm : m a with
    | some v => simp
    | none =>
      by_cases hmem : a ∈ p.center :: p.members
      · have hcond : (none : Option String).isNone = true ∧ a ∈ p.center :: p.members :=
          ⟨rfl, hmem⟩
        rw [if_pos hcond, if_pos hmem]
        simp only [Option.isSome_some, if_true]
        show some (smurfRingId i) = some (smurfRingId (i + 0))
        rw [Nat.add_zero]
      · have hinner : (if (none : Option String).isNone = true ∧ a ∈ p.center :: p.members
            then some (smurfRingId i) else (none : Option String)) = none := by
          rw [if_neg (fun hcon => hmem hcon.2)]
        rw [hinner, if_neg hmem]
        simp only [Option.isSome_none, Bool.false_eq_true, if_false]
        cases hrest : firstIdxMem a (rest.map (fun p => p.center :: p.members)) with
        | some j =>
          show some (smurfRingId (i + 1 + j)) = some (smurfRingId (i + (j + 1)))
          rw [show i + 1 + j = i + (j + 1) from by omega]
        | none => rfl

theorem procShells_preserve :
    ∀ (shells : List (List String)) (i : Nat) (m : RM) (a : String),
      (m a).isSome → (procShells shells i m).2 a = m a
  | [], i, m, a => by intro _; rw [procShells]
  | chain :: rest, i, m, a => by
    intro hma
    rw [procShells]
    by_cases hskip : chain.length < 2 * (chain.filter (fun x => (m x).isSome)).length
    · rw [if_pos hskip]
      exact procShells_preserve rest (i + 1) m a hma
    · rw [if_neg hskip]
      have h2 : (chain.foldl (fun acc x => setAbsent acc x (shellRingId i)) m) a = m a := by
        rw [foldl_setAbsent]
        have : ¬ (m a).isNone := by
          cases hm : m a with
          | none => rw [hm] at hma; simp at hma
          | some v => simp
        rw [if_neg (fun hcon => this hcon.1)]
      have h3 := procShells_preserve rest (i + 1)
        (chain.foldl (fun acc x => setAbsent acc x (shellRingId i)) m) a (by rw [h2]; exact hma)
      rw [h3, h2]

/-- C5, amended: cycle assignments overwrite, so an account in any cycle
reports the id of the last cycle containing it; an account in no cycle
that belongs to some smurfing ring reports the first such ring's id
(smurfing and shell assignments never overwrite); and every emitted
suspicious record carries exactly the map's entry for its account. -/
theorem C5_amended (cycles : List (List String)) (smurfs : List SmurfPattern)
    (shells : List (List String)) (df : Df) (ml gnn s1 : String → ℤ)
    (mule : String → Option (ℤ × String)) (rapid : String → Bool) :
    (∀ a j, lastIdxMem a cycles = some j →
      (buildRings cycles smurfs shells).2 a = some (cycleRingId j)) ∧
    (∀ a j, lastIdxMem a cycles = none →
      firstIdxMem a (smurfs.map (fun p => p.center :: p.members)) = some j →
      (buildRings cycles smurfs shells).2 a = some (smurfRingId j)) ∧
    (∀ rec ∈ suspList df (buildRings cycles smurfs shells).1
        (buildRings cycles smurfs shells).2 ml gnn s1 mule rapid,
      rec.ring_id = (buildRings cycles smurfs shells).2 rec.account_id) := by
  refine ⟨?_, ?_, ?_⟩
  · intro a j hlast
    have h1 : (procCycles cycles 0 (fun _ => none)).2 a = some (cycleRingId j) := by
      rw [procCycles_map, hlast]
      simp
    have h2 : (procSmurfs smurfs 0 (procCycles cycles 0 (fun _ => none)).2).2 a =
        some (cycleRingId j) := by
      rw [procSmurfs_map, h1]
      simp
    rw [buildRings]
    simp only []
    rw [procShells_preserve _ 0 _ a (by rw [h2]; rfl), h2]
  · intro a j hlast hfirst
    have h1 : (procCycles cycles 0 (fun _ => none)).2 a = none := by
      rw [procCycles_map, hlast]
    have h2 : (procSmurfs smurfs 0 (procCycles cycles 0 (fun _ => none)).2).2 a =
        some (smurfRingId j) := by
      rw [procSmurfs_map, h1, hfirst]
      simp
    rw [buildRings]
    simp only []
    rw [procShells_preserve _ 0 _ a (by rw [h2]; rfl), h2]
  · intro rec hrec
    rw [suspList, sortByScoreDesc] at hrec
    rw [mem_sortLe] at hrec
    obtain ⟨a, ha, hsome⟩ := List.mem_filterMap.mp hrec
    by_cases hth : 55 ≤ finalScore (buildRings cycles smurfs shells).1 ml gnn s1 mule rapid a
    · rw [if_pos hth] at hsome
      cases hsome
      rfl
    · rw [if_neg hth] at hsome
      exact Option.noConfusion hsome

/-- C5, witness: on the two shared-member cycles, the amended theorem
reports the last containing cycle for `X`. -/
theorem C5_witness :
    (buildRings [["A", "B", "X"], ["C", "D", "X"]] [] []).2 "X" =
      some (cycleRingId 1) :=
  (C5_amended [["A", "B", "X"], ["C", "D", "X"]] [] [] [] zeroScores zeroScores
    zeroScores noMule noRapid).1 "X" 1 (by decide)

/-! ### Claim C6 — amended fusion floors -/

theorem procCycles_rings :
    ∀ (cs : List (List String)) (i : Nat) (m : RM) (r : FraudRing),
      r ∈ (procCycles cs i m).1 → r.pattern_type = "cycle"
  | [], _, _, r => by
    rw [procCycles]
    intro h
    exact absurd h (List.not_mem_nil r)
  | c :: rest, i, m, r => by
    rw [procCycles]
    intro h
    rcases List.mem_cons.mp h with h | h
    · subst h; rfl
    · exact procCycles_rings rest (i + 1) _ r h

theorem procSmurfs_rings :
    ∀ (ps : List SmurfPattern) (i : Nat) (m : RM) (r : FraudRing),
      r ∈ (procSmurfs ps i m).1 →
        ∃ p ∈ ps, r.member_accounts = p.center :: p.members ∧
          r.pattern_type = ptypeStr p.ptype
  | [], _, _, r => by
    rw [procSmurfs]
    intro h
    exact absurd h (List.not_mem_nil r)
  | p :: rest, i, m, r => by
    rw [procSmurfs]
    intro h
    rcases List.mem_cons.mp h with h | h
    · subst h
      exact ⟨p, List.mem_cons_self p rest, rfl, rfl⟩
    · obtain ⟨q, hq, hmem, hpt⟩ := procSmurfs_rings rest (i + 1) _ r h
      exact ⟨q, List.mem_cons_of_mem p hq, hmem, hpt⟩

theorem procShells_rings :
    ∀ (shells : List (List String)) (i : Nat) (m : RM) (r : FraudRing),
      r ∈ (procShells shells i m).1 → r.pattern_type = "layered_shell"
  | [], _, _, r => by
    rw [procShells]
    intro h
    exact absurd h (List.not_mem_nil r)
  | chain :: rest, i, m, r => by
    rw [procShells]
    intro h
    by_cases hskip : chain.length < 2 * (chain.filter (fun x => (m x).isSome)).length
    · rw [if_pos hskip] at h
      exact procShells_rings rest (i + 1) m r h
    · rw [if_neg hskip] at h
      rcases List.mem_cons.mp h with h | h
      · subst h; rfl
      · exact procShells_rings rest (i + 1) _ r h

theorem buildRings_rings (cycles : List (List String)) (smurfs : List SmurfPattern)
    (shells : List (List String)) (r : FraudRing)
    (h : r ∈ (buildRings cycles smurfs shells).1) :
    r.pattern_type = "cycle" ∨
      (∃ p ∈ smurfs, r.member_accounts = p.center :: p.members ∧
        r.pattern_type = ptypeStr p.ptype) ∨
      r.pattern_type = "layered_shell" := by
  rw [buildRings] at h
  simp only [] at h
  rcases List.mem_append.mp h with h | h
  · rcases List.mem_append.mp h with h | h
    · exact Or.inl (procCycles_rings cycles 0 _ r h)
    · exact Or.inr (Or.inl (procSmurfs_rings smurfs 0 _ r h))
  · exact Or.inr (Or.inr (procShells_rings shells 0 _ r h))

theorem ringPatterns_ne_nil (rings : List FraudRing) (a : String) (r : FraudRing)
    (hr : r ∈ rings) (hm : a ∈ r.member_accounts)
    (hp : r.pattern_type = "cycle" ∨ r.pattern_type = "fan_in" ∨
      r.pattern_type = "fan_out" ∨ r.pattern_type = "fan_in_out" ∨
      r.pattern_type = "layered_shell") :
    ringPatterns rings a ≠ [] := by
  have hcont : r.member_accounts.contains a = true := List.elem_eq_true_of_mem hm
  have hex : ∃ y, y ∈ ringPatterns rings a := by
    rw [ringPatterns]
    rcases hp with hp | hp | hp | hp | hp
    · exact ⟨"cycle_member", List.mem_flatMap.mpr ⟨r, hr, by simp [hcont, hp, hm]⟩⟩
    · by_cases hh : (r.member_accounts.headD "" == a) = true
      · refine ⟨r.pattern_type ++ "_center", List.mem_flatMap.mpr ⟨r, hr, ?_⟩⟩
        have heq : r.member_accounts.head?.getD "" = a := by
          have h2 := beq_iff_eq.mp hh
          rw [List.headD_eq_head?_getD] at h2
          exact h2
        simp [hcont, hp, hm, heq, show containsSub "fan_in" "fan_" = true from by decide]
      · refine ⟨r.pattern_type ++ "_member", List.mem_flatMap.mpr ⟨r, hr, ?_⟩⟩
        have hneq : r.member_accounts.head?.getD "" ≠ a := by
          intro hcon
          exact hh (beq_iff_eq.mpr (by rw [List.headD_eq_head?_getD]; exact hcon))
        simp [hcont, hp, hm, hneq, show containsSub "fan_in" "fan_" = true from by decide]
    · by_cases hh : (r.member_accounts.headD "" == a) = true
      · refine ⟨r.pattern_type ++ "_center", List.mem_flatMap.mpr ⟨r, hr, ?_⟩⟩
        have heq : r.member_accounts.head?.getD "" = a := by
          have h2 := beq_iff_eq.mp hh
          rw [List.headD_eq_head?_getD] at h2
          exact h2
        simp [hcont, hp, hm, heq, show containsSub "fan_out" "fan_" = true from by decide]
      · refine ⟨r.pattern_type ++ "_member", List.mem_flatMap.mpr ⟨r, hr, ?_⟩⟩
        have hneq : r.member_accounts.head?.getD "" ≠ a := by
          intro hcon
          exact hh (beq_iff_eq.mpr (by rw [List.headD_eq_head?_getD]; exact hcon))
        simp [hcont, hp, hm, hneq, show containsSub "fan_out" "fan_" = true from by decide]
    · by_cases hh : (r.member_accounts.headD "" == a) = true
      · refine ⟨r.pattern_type ++ "_center", List.mem_flatMap.mpr ⟨r, hr, ?_⟩⟩
        have heq : r.member_accounts.head?.getD "" = a := by
          have h2 := beq_iff_eq.mp hh
          rw [List.headD_eq_head?_getD] at h2
          exact h2
        simp [hcont, hp, hm, heq, show containsSub "fan_in_out" "fan_" = true from by decide]
      · refine ⟨r.pattern_type ++ "_member", List.mem_flatMap.mpr ⟨r, hr, ?_⟩⟩
        have hneq : r.member_accounts.head?.getD "" ≠ a := by
          intro hcon
          exact hh (beq_iff_eq.mpr (by rw [List.headD_eq_head?_getD]; exact hcon))
        simp [hcont, hp, hm, hneq, show containsSub "fan_in_out" "fan_" = true from by decide]
    · exact ⟨"shell_member", List.mem_flatMap.mpr ⟨r, hr, by
        simp [hcont, hp, hm, show containsSub "layered_shell" "fan_" = false from by decide]⟩⟩
  obtain ⟨y, hy⟩ := hex
  exact List.ne_nil_of_mem hy

theorem accountPatterns_ne_nil (rings : List FraudRing)
    (mule : String → Option (ℤ × String)) (rapid : String → Bool) (a : String)
    (h : ringPatterns rings a ≠ []) :
    accountPatterns rings mule rapid a ≠ [] := by
  rw [accountPatterns]
  intro h0
  rcases List.append_eq_nil.mp h0 with ⟨h1, -⟩
  rcases List.append_eq_nil.mp h1 with ⟨h2, -⟩
  exact h h2

/-- C6, amended: high-priority labels boost the final score to at least
90; a member of any ring whose labels do not include `fan_out_member` is
floored at 65 (fan-out members get no floor); and an account appears in
`suspicious_accounts` iff it occurs in the batch and its final score is at
least 55. -/
theorem C6_amended (df : Df) (ml gnn s1 : String → ℤ)
    (mule : String → Option (ℤ × String)) (rapid : String → Bool) (a : String) :
    (highPriority (accountPatterns (analyze_transactions df ml gnn s1 mule rapid).1
        mule rapid a) = true →
      90 ≤ finalScore (analyze_transactions df ml gnn s1 mule rapid).1 ml gnn s1 mule rapid a) ∧
    ((∃ r ∈ (analyze_transactions df ml gnn s1 mule rapid).1, a ∈ r.member_accounts) →
      (accountPatterns (analyze_transactions df ml gnn s1 mule rapid).1 mule rapid a).any
        (fun p => containsSub p "fan_out_member") = false →
      65 ≤ finalScore (analyze_transactions df ml gnn s1 mule rapid).1 ml gnn s1 mule rapid a) ∧
    ((∃ rec ∈ (analyze_transactions df ml gnn s1 mule rapid).2, rec.account_id = a) ↔
      a ∈ allAccountsOrder df ∧
        55 ≤ finalScore (analyze_transactions df ml gnn s1 mule rapid).1 ml gnn s1 mule rapid a) := by
  refine ⟨?_, ?_, ?_⟩
  · intro hp
    have hne : accountPatterns (analyze_transactions df ml gnn s1 mule rapid).1
        mule rapid a ≠ [] := by
      intro h0
      rw [h0] at hp
      exact Bool.noConfusion hp
    rw [finalScore, fuseFinal]
    rw [if_neg (by
      intro hcon
      exact hne (List.isEmpty_iff.mp hcon))]
    rw [if_pos hp]
    exact le_max_right _ _
  · rintro ⟨r, hr, hmr⟩ hfan
    have hp5 := buildRings_rings (detect_cycles_dcfr df) (detect_smurfing df)
      (detect_shells df) r hr
    have hp : r.pattern_type = "cycle" ∨ r.pattern_type = "fan_in" ∨
        r.pattern_type = "fan_out" ∨ r.pattern_type = "fan_in_out" ∨
        r.pattern_type = "layered_shell" := by
      rcases hp5 with h | h | h
      · exact Or.inl h
      · obtain ⟨p, -, -, hpt⟩ := h
        cases hq : p.ptype <;> rw [hq] at hpt <;> simp [ptypeStr] at hpt <;>
          simp [hpt]
      · exact Or.inr (Or.inr (Or.inr (Or.inr h)))
    have hne := accountPatterns_ne_nil (analyze_transactions df ml gnn s1 mule rapid).1
      mule rapid a
      (ringPatterns_ne_nil (analyze_transactions df ml gnn s1 mule rapid).1 a r hr hmr hp)
    rw [finalScore, fuseFinal]
    rw [if_neg (by
      intro hcon
      exact hne (List.isEmpty_iff.mp hcon))]
    by_cases hhp : highPriority (accountPatterns
        (analyze_transactions df ml gnn s1 mule rapid).1 mule rapid a) = true
    · rw [if_pos hhp]
      exact le_trans (by norm_num) (le_max_right _ _)
    · rw [if_neg hhp, hfan]
      simp only [Bool.false_eq_true, if_false]
      exact le_max_right _ _
  · constructor
    · rintro ⟨rec, hrec, hacc⟩
      rw [show (analyze_transactions df ml gnn s1 mule rapid).2 =
          suspList df (buildRings (detect_cycles_dcfr df) (detect_smurfing df)
            (detect_shells df)).1
            (buildRings (detect_cycles_dcfr df) (detect_smurfing df)
              (detect_shells df)).2 ml gnn s1 mule rapid from rfl] at hrec
      rw [suspList, sortByScoreDesc, mem_sortLe] at hrec
      obtain ⟨x, hx, hsome⟩ := List.mem_filterMap.mp hrec
      by_cases hth : 55 ≤ finalScore (buildRings (detect_cycles_dcfr df)
          (detect_smurfing df) (detect_shells df)).1 ml gnn s1 mule rapid x
      · rw [if_pos hth] at hsome
        cases hsome
        exact ⟨hacc ▸ hx, hacc ▸ hth⟩
      · rw [if_neg hth] at hsome
        exact Option.noConfusion hsome
    · rintro ⟨horder, hth⟩
      refine ⟨⟨a, finalScore (analyze_transactions df ml gnn s1 mule rapid).1
          ml gnn s1 mule rapid a,
        uniqFirst (accountPatterns (analyze_transactions df ml gnn s1 mule rapid).1
          mule rapid a),
        (buildRings (detect_cycles_dcfr df) (detect_smurfing df)
          (detect_shells df)).2 a⟩, ?_, rfl⟩
      rw [show (analyze_transactions df ml gnn s1 mule rapid).2 =
          suspList df (buildRings (detect_cycles_dcfr df) (detect_smurfing df)
            (detect_shells df)).1
            (buildRings (detect_cycles_dcfr df) (detect_smurfing df)
              (detect_shells df)).2 ml gnn s1 mule rapid from rfl]
      rw [suspList, sortByScoreDesc, mem_sortLe]
      refine List.mem_filterMap.mpr ⟨a, horder, ?_⟩
      have hth2 : 55 ≤ finalScore (buildRings (detect_cycles_dcfr df) (detect_smurfing df)
          (detect_shells df)).1 ml gnn s1 mule rapid a := hth
      rw [if_pos hth2]
      rfl

/-- C6, witness: the fan-out centre `F` of `c6df` carries a high-priority
label and is boosted to at least 90. -/
theorem C6_witness :
    90 ≤ finalScore (analyze_transactions c6df zeroScores zeroScores zeroScores
        noMule noRapid).1 zeroScores zeroScores zeroScores noMule noRapid "F" :=
  (C6_amended c6df zeroScores zeroScores zeroScores noMule noRapid "F").1 (by decide)

/-! ### Claim C3 — amended: the graph-module detector's dedup and cap -/

theorem gdcInner_spec (df : Df) :
    ∀ (cl : List (List String)) (count : Nat) (seen : List (List String)),
      count ≤ 5000 →
      count ≤ (gdcInner df cl count seen).2.1 ∧
      (gdcInner df cl count seen).2.1 ≤ 5000 ∧
      (gdcInner df cl count seen).1.length + count ≤ (gdcInner df cl count seen).2.1 ∧
      (∀ k ∈ seen, k ∈ (gdcInner df cl count seen).2.2) ∧
      (∀ r ∈ (gdcInner df cl count seen).1,
        sortLe strLe r.members ∈ (gdcInner df cl count seen).2.2 ∧
        sortLe strLe r.members ∉ seen) ∧
      ((gdcInner df cl count seen).1.map (fun r => sortLe strLe r.members)).Nodup
  | [], count, seen => by
    intro hcount
    rw [gdcInner]
    refine ⟨le_refl _, hcount, by simp, fun k hk => hk, fun r hr => absurd hr ?_, by simp⟩
    exact List.not_mem_nil r
  | c :: rest, count, seen => by
    intro hcount
    rw [gdcInner]
    by_cases hcap : 5000 ≤ count
    · rw [if_pos hcap]
      refine ⟨le_refl _, hcount, by simp, fun k hk => hk, fun r hr => absurd hr ?_, by simp⟩
      exact List.not_mem_nil r
    · rw [if_neg hcap]
      have hc1 : count + 1 ≤ 5000 := by omega
      by_cases hlen : c.length < 3 ∨ 5 < c.length
      · rw [if_pos hlen]
        have ih := gdcInner_spec df rest (count + 1) seen hc1
        exact ⟨by omega, ih.2.1, by omega, ih.2.2.2.1, ih.2.2.2.2.1, ih.2.2.2.2.2⟩
      · rw [if_neg hlen]
        by_cases hseen : seen.contains (sortLe strLe c) = true
        · simp only [hseen, if_true]
          have ih := gdcInner_spec df rest (count + 1) seen hc1
          exact ⟨by omega, ih.2.1, by omega, ih.2.2.2.1, ih.2.2.2.2.1, ih.2.2.2.2.2⟩
        · simp only [hseen, Bool.false_eq_true, if_false]
          have ih := gdcInner_spec df rest (count + 1) (sortLe strLe c :: seen) hc1
          have hnotseen : sortLe strLe c ∉ seen := fun hmem =>
            hseen (List.elem_eq_true_of_mem hmem)
          refine ⟨by omega, ih.2.1, ?_, ?_, ?_, ?_⟩
          · simp only [List.length_cons]
            omega
          · intro k hk
            exact ih.2.2.2.1 k (List.mem_cons_of_mem _ hk)
          · intro r hr
            rcases List.mem_cons.mp hr with hr | hr
            · subst hr
              exact ⟨ih.2.2.2.1 _ (List.mem_cons_self _ _), hnotseen⟩
            · have h2 := ih.2.2.2.2.1 r hr
              exact ⟨h2.1, fun hmem => h2.2 (List.mem_cons_of_mem _ hmem)⟩
          · simp only [List.map_cons]
            refine List.nodup_cons.mpr ⟨?_, ih.2.2.2.2.2⟩
            intro hmem
            obtain ⟨r, hr, hkey⟩ := List.mem_map.mp hmem
            exact (ih.2.2.2.2.1 r hr).2 (hkey ▸ List.mem_cons_self _ _)

theorem gdcOuter_spec (df : Df) :
    ∀ (sccs : List (List String)) (count : Nat) (seen : List (List String)),
      count ≤ 5000 →
      (gdcOuter df sccs count seen).length + count ≤ 5000 ∧
      (∀ r ∈ gdcOuter df sccs count seen, sortLe strLe r.members ∉ seen) ∧
      ((gdcOuter df sccs count seen).map (fun r => sortLe strLe r.members)).Nodup
  | [], count, seen => by
    intro hcount
    rw [gdcOuter]
    exact ⟨by simpa using hcount, fun r hr => absurd hr (List.not_mem_nil r), by simp⟩
  | scc :: rest, count, seen => by
    intro hcount
    rw [gdcOuter]
    by_cases hcap : 5000 ≤ count
    · rw [if_pos hcap]
      exact ⟨by simpa using hcount, fun r hr => absurd hr (List.not_mem_nil r), by simp⟩
    · rw [if_neg hcap]
      have hinner := gdcInner_spec df
        (simpleCyclesList scc (fun u v => scc.contains u && scc.contains v && edgeB df u v))
        count seen hcount
      have ih := gdcOuter_spec df rest
        (gdcInner df (simpleCyclesList scc
          (fun u v => scc.contains u && scc.contains v && edgeB df u v)) count seen).2.1
        (gdcInner df (simpleCyclesList scc
          (fun u v => scc.contains u && scc.contains v && edgeB df u v)) count seen).2.2
        hinner.2.1
      refine ⟨?_, ?_, ?_⟩
      · rw [List.length_append]
        omega
      · intro r hr
        rcases List.mem_append.mp hr with hr | hr
        · exact (hinner.2.2.2.2.1 r hr).2
        · intro hmem
          exact ih.2.1 r hr (hinner.2.2.2.1 _ hmem)
      · rw [List.map_append]
        refine List.Nodup.append hinner.2.2.2.2.2 ih.2.2 ?_
        intro k hk1 hk2
        obtain ⟨r1, hr1, hkey1⟩ := List.mem_map.mp hk1
        obtain ⟨r2, hr2, hkey2⟩ := List.mem_map.mp hk2
        exact ih.2.1 r2 hr2 (hkey2 ▸ hkey1 ▸ (hinner.2.2.2.2.1 r1 hr1).1)

/-- C3, amended: the graph-module cycle detector
(`graph/cycle_detector.py`) deduplicates by the sorted member tuple — no
two returned rings share a member set — and the global 5000-raw-cycle cap
bounds the output; the detector the orchestrator invokes does neither
(see the counterexample). -/
theorem C3_amended (df : Df) :
    ((graph_detect_cycles df).map (fun r => sortLe strLe r.members)).Nodup ∧
    (graph_detect_cycles df).length ≤ 5000 := by
  have h := gdcOuter_spec df ((strongComponents df).filter (fun s => 3 ≤ s.length)) 0 []
    (by omega)
  rw [graph_detect_cycles]
  exact ⟨h.2.2, by omega⟩

/-! ### Claim C1 — amended smurfing invariants -/

theorem fanInPatterns_inv (df : Df) (p : SmurfPattern) (h : p ∈ fanInPatterns df) :
    p = ⟨.fan_in, p.center, uniqFirst ((recvTxns df p.center).map (·.sender)),
        (recvTxns df p.center).length⟩ ∧
    10 ≤ (recvTxns df p.center).length ∧ spanSec (recvTxns df p.center) ≤ 259200 := by
  obtain ⟨r, hr, hsome⟩ := List.mem_filterMap.mp h
  by_cases hcond : 10 ≤ (recvTxns df r).length ∧ spanSec (recvTxns df r) ≤ 259200 ∧
      fanInMerchant df r (recvTxns df r) = false
  · rw [if_pos hcond] at hsome
    cases hsome
    exact ⟨rfl, hcond.1, hcond.2.1⟩
  · rw [if_neg hcond] at hsome
    exact Option.noConfusion hsome

theorem fanOutPatterns_inv (df : Df) (p : SmurfPattern) (h : p ∈ fanOutPatterns df) :
    p = ⟨.fan_out, p.center, uniqFirst ((sentTxns df p.center).map (·.receiver)),
        (sentTxns df p.center).length⟩ ∧
    10 ≤ (sentTxns df p.center).length ∧ spanSec (sentTxns df p.center) ≤ 259200 := by
  obtain ⟨s, hs, hsome⟩ := List.mem_filterMap.mp h
  by_cases hcond : 10 ≤ (sentTxns df s).length ∧ spanSec (sentTxns df s) ≤ 259200 ∧
      fanOutPayroll df s (sentTxns df s) = false
  · rw [if_pos hcond] at hsome
    cases hsome
    exact ⟨rfl, hcond.1, hcond.2.1⟩
  · rw [if_neg hcond] at hsome
    exact Option.noConfusion hsome

theorem fanInPatterns_members_ne_nil (df : Df) (p : SmurfPattern)
    (h : p ∈ fanInPatterns df) : p.members ≠ [] := by
  obtain ⟨hcanon, hlen, -⟩ := fanInPatterns_inv df p h
  rw [hcanon]
  simp only []
  rw [Ne, uniqFirst_eq_nil_iff, List.map_eq_nil_iff]
  intro h0
  rw [h0] at hlen
  simp at hlen

theorem fanOutPatterns_members_ne_nil (df : Df) (p : SmurfPattern)
    (h : p ∈ fanOutPatterns df) : p.members ≠ [] := by
  obtain ⟨hcanon, hlen, -⟩ := fanOutPatterns_inv df p h
  rw [hcanon]
  simp only []
  rw [Ne, uniqFirst_eq_nil_iff, List.map_eq_nil_iff]
  intro h0
  rw [h0] at hlen
  simp at hlen

theorem fanInPatterns_center_inj (df : Df) (p q : SmurfPattern)
    (hp : p ∈ fanInPatterns df) (hq : q ∈ fanInPatterns df)
    (hc : p.center = q.center) : p = q := by
  rw [(fanInPatterns_inv df p hp).1, (fanInPatterns_inv df q hq).1, hc]

theorem fanOutPatterns_center_inj (df : Df) (p q : SmurfPattern)
    (hp : p ∈ fanOutPatterns df) (hq : q ∈ fanOutPatterns df)
    (hc : p.center = q.center) : p = q := by
  rw [(fanOutPatterns_inv df p hp).1, (fanOutPatterns_inv df q hq).1, hc]

theorem filter_center_len_le_one (pats : List SmurfPattern)
    (hinj : ∀ p q, p ∈ pats → q ∈ pats → p.center = q.center → p = q)
    (hnd : pats.Nodup) (c : String) :
    (pats.filter (fun q => q.center == c)).length ≤ 1 := by
  cases h : pats.filter (fun q => q.center == c) with
  | nil => simp
  | cons x xs =>
    cases hxs : xs with
    | nil => simp
    | cons y ys =>
      exfalso
      have hnd2 := List.Nodup.filter (fun q => q.center == c) hnd
      rw [h, hxs] at hnd2
      have hx : x ∈ pats.filter (fun q => q.center == c) := by
        rw [h]; exact List.mem_cons_self _ _
      have hy : y ∈ pats.filter (fun q => q.center == c) := by
        rw [h, hxs]; exact List.mem_cons_of_mem x (List.mem_cons_self _ _)
      have hxc := beq_iff_eq.mp (List.mem_filter.mp hx).2
      have hyc := beq_iff_eq.mp (List.mem_filter.mp hy).2
      have heq := hinj x y (List.mem_filter.mp hx).1 (List.mem_filter.mp hy).1
        (hxc.trans hyc.symm)
      exact (List.nodup_cons.mp hnd2).1 (heq ▸ List.mem_cons_self y ys)

theorem fanInPatterns_nodup (df : Df) : (fanInPatterns df).Nodup := by
  rw [fanInPatterns]
  apply List.Nodup.filterMap
  · intro r1 r2 p hp1 hp2
    have hc1 : p.center = r1 := by
      by_cases hcond : 10 ≤ (recvTxns df r1).length ∧ spanSec (recvTxns df r1) ≤ 259200 ∧
          fanInMerchant df r1 (recvTxns df r1) = false
      · rw [if_pos hcond] at hp1
        cases hp1
        rfl
      · rw [if_neg hcond] at hp1
        exact Option.noConfusion hp1
    have hc2 : p.center = r2 := by
      by_cases hcond : 10 ≤ (recvTxns df r2).length ∧ spanSec (recvTxns df r2) ≤ 259200 ∧
          fanInMerchant df r2 (recvTxns df r2) = false
      · rw [if_pos hcond] at hp2
        cases hp2
        rfl
      · rw [if_neg hcond] at hp2
        exact Option.noConfusion hp2
    exact hc1.symm.trans hc2
  · exact sortLe_nodup _ _ (uniqFirst_nodup _)

theorem fanOutPatterns_nodup (df : Df) : (fanOutPatterns df).Nodup := by
  rw [fanOutPatterns]
  apply List.Nodup.filterMap
  · intro s1 s2 p hp1 hp2
    have hc1 : p.center = s1 := by
      by_cases hcond : 10 ≤ (sentTxns df s1).length ∧ spanSec (sentTxns df s1) ≤ 259200 ∧
          fanOutPayroll df s1 (sentTxns df s1) = false
      · rw [if_pos hcond] at hp1
        cases hp1
        rfl
      · rw [if_neg hcond] at hp1
        exact Option.noConfusion hp1
    have hc2 : p.center = s2 := by
      by_cases hcond : 10 ≤ (sentTxns df s2).length ∧ spanSec (sentTxns df s2) ≤ 259200 ∧
          fanOutPayroll df s2 (sentTxns df s2) = false
      · rw [if_pos hcond] at hp2
        cases hp2
        rfl
      · rw [if_neg hcond] at hp2
        exact Option.noConfusion hp2
    exact hc1.symm.trans hc2
  · exact sortLe_nodup _ _ (uniqFirst_nodup _)

theorem headD_mem (l : List SmurfPattern) (d : SmurfPattern) (h : l ≠ []) :
    l.headD d ∈ l := by
  cases l with
  | nil => exact absurd rfl h
  | cons x xs => exact List.mem_cons_self x xs

/-- C1, amended: every pattern emitted by the smurfing detector is built
from at least ten *transactions* on the triggering side (both sides for
`fan_in_out`), all of the centre's transactions on that side lying within
72 hours; its member list (the distinct counterparties) is non-empty but
may be arbitrarily short.  Consequently every smurfing ring handed to the
orchestrator has at least two members (centre plus at least one
counterparty), not eleven. -/
theorem C1_amended (df : Df) :
    (∀ p ∈ detect_smurfing df,
      p.members ≠ [] ∧
      ((p.ptype = .fan_in ∨ p.ptype = .fan_in_out) →
        10 ≤ (recvTxns df p.center).length ∧ spanSec (recvTxns df p.center) ≤ 259200) ∧
      ((p.ptype = .fan_out ∨ p.ptype = .fan_in_out) →
        10 ≤ (sentTxns df p.center).length ∧ spanSec (sentTxns df p.center) ≤ 259200)) ∧
    (∀ (cycles shells : List (List String)) (r : FraudRing),
      r ∈ (buildRings cycles (detect_smurfing df) shells).1 →
      containsSub r.pattern_type "fan_" = true →
      2 ≤ r.member_accounts.length) := by
  have hmain : ∀ p ∈ detect_smurfing df,
      p.members ≠ [] ∧
      ((p.ptype = .fan_in ∨ p.ptype = .fan_in_out) →
        10 ≤ (recvTxns df p.center).length ∧ spanSec (recvTxns df p.center) ≤ 259200) ∧
      ((p.ptype = .fan_out ∨ p.ptype = .fan_in_out) →
        10 ≤ (sentTxns df p.center).length ∧ spanSec (sentTxns df p.center) ≤ 259200) := by
    intro p hp
    rw [detect_smurfing] at hp
    obtain ⟨c, hc, hbody⟩ := List.mem_map.mp hp
    have hc2 : c ∈ uniqFirst ((fanInPatterns df ++ fanOutPatterns df).map (·.center)) := hc
    have hb : (if 1 < ((fanInPatterns df ++ fanOutPatterns df).filter
            (fun q => q.center == c)).length then
          (⟨PType.fan_in_out, c,
            uniqFirst (((fanInPatterns df ++ fanOutPatterns df).filter
              (fun q => q.center == c)).flatMap (·.members)),
            (uniqFirst (((fanInPatterns df ++ fanOutPatterns df).filter
              (fun q => q.center == c)).flatMap (·.members))).length⟩ : SmurfPattern)
        else ((fanInPatterns df ++ fanOutPatterns df).filter
            (fun q => q.center == c)).headD ⟨PType.fan_in, c, [], 0⟩) = p := hbody
    have hcen : ∃ q ∈ fanInPatterns df ++ fanOutPatterns df, q.center = c := by
      rw [mem_uniqFirst] at hc2
      obtain ⟨q, hq, hqc⟩ := List.mem_map.mp hc2
      exact ⟨q, hq, hqc⟩
    obtain ⟨q0, hq0, hq0c⟩ := hcen
    have hq0p : q0 ∈ (fanInPatterns df ++ fanOutPatterns df).filter
        (fun q => q.center == c) :=
      List.mem_filter.mpr ⟨hq0, beq_iff_eq.mpr hq0c⟩
    have hplist_ne : (fanInPatterns df ++ fanOutPatterns df).filter
        (fun q => q.center == c) ≠ [] := List.ne_nil_of_mem hq0p
    have hsplit : (fanInPatterns df ++ fanOutPatterns df).filter
          (fun q => q.center == c) =
        (fanInPatterns df).filter (fun q => q.center == c) ++
          (fanOutPatterns df).filter (fun q => q.center == c) :=
      List.filter_append _ _
    by_cases hlen : 1 < ((fanInPatterns df ++ fanOutPatterns df).filter
        (fun q => q.center == c)).length
    · rw [if_pos hlen] at hb
      have hinlen := filter_center_len_le_one (fanInPatterns df)
        (fun a b ha hb hc => fanInPatterns_center_inj df a b ha hb hc)
        (fanInPatterns_nodup df) c
      have houtlen := filter_center_len_le_one (fanOutPatterns df)
        (fun a b ha hb hc => fanOutPatterns_center_inj df a b ha hb hc)
        (fanOutPatterns_nodup df) c
      have hlen2 : ((fanInPatterns df ++ fanOutPatterns df).filter
          (fun q => q.center == c)).length =
          ((fanInPatterns df).filter (fun q => q.center == c)).length +
          ((fanOutPatterns df).filter (fun q => q.center == c)).length := by
        rw [hsplit, List.length_append]
      have hinpos : 0 < ((fanInPatterns df).filter (fun q => q.center == c)).length := by
        omega
      have houtpos : 0 < ((fanOutPatterns df).filter (fun q => q.center == c)).length := by
        omega
      obtain ⟨pin, hpinF⟩ := List.exists_mem_of_length_pos hinpos
      obtain ⟨pout, hpoutF⟩ := List.exists_mem_of_length_pos houtpos
      have hpinI : pin ∈ fanInPatterns df := (List.mem_filter.mp hpinF).1
      have hpinC : pin.center = c := beq_iff_eq.mp (List.mem_filter.mp hpinF).2
      have hpoutO : pout ∈ fanOutPatterns df := (List.mem_filter.mp hpoutF).1
      have hpoutC : pout.center = c := beq_iff_eq.mp (List.mem_filter.mp hpoutF).2
      have hpinP : pin ∈ (fanInPatterns df ++ fanOutPatterns df).filter
          (fun q => q.center == c) := by
        rw [hsplit]
        exact List.mem_append.mpr (Or.inl hpinF)
      refine hb ▸ ⟨?_, ?_, ?_⟩
      · simp only []
        rw [Ne, uniqFirst_eq_nil_iff]
        intro h0
        have hmne := fanInPatterns_members_ne_nil df pin hpinI
        obtain ⟨y, hy⟩ := List.exists_mem_of_length_pos
          (List.length_pos.mpr hmne)
        have : y ∈ ((fanInPatterns df ++ fanOutPatterns df).filter
            (fun q => q.center == c)).flatMap (·.members) :=
          List.mem_flatMap.mpr ⟨pin, hpinP, hy⟩
        rw [h0] at this
        exact List.not_mem_nil y this
      · intro _
        have h2 := (fanInPatterns_inv df pin hpinI).2
        rw [hpinC] at h2
        exact h2
      · intro _
        have h2 := (fanOutPatterns_inv df pout hpoutO).2
        rw [hpoutC] at h2
        exact h2
    · rw [if_neg hlen] at hb
      have hpp : p ∈ (fanInPatterns df ++ fanOutPatterns df).filter
          (fun q => q.center == c) := hb ▸ headD_mem _ _ hplist_ne
      have hpmem : p ∈ fanInPatterns df ++ fanOutPatterns df :=
        (List.mem_filter.mp hpp).1
      rcases List.mem_append.mp hpmem with hin | hout
      · obtain ⟨hcanon, hlen10, hspan⟩ := fanInPatterns_inv df p hin
        have hpt : p.ptype = PType.fan_in := by rw [hcanon]
        refine ⟨fanInPatterns_members_ne_nil df p hin, fun _ => ⟨hlen10, hspan⟩, ?_⟩
        intro hcase
        exfalso
        rcases hcase with hcase | hcase
        · rw [hpt] at hcase
          exact PType.noConfusion hcase
        · rw [hpt] at hcase
          exact PType.noConfusion hcase
      · obtain ⟨hcanon, hlen10, hspan⟩ := fanOutPatterns_inv df p hout
        have hpt : p.ptype = PType.fan_out := by rw [hcanon]
        refine ⟨fanOutPatterns_members_ne_nil df p hout, ?_, fun _ => ⟨hlen10, hspan⟩⟩
        intro hcase
        exfalso
        rcases hcase with hcase | hcase
        · rw [hpt] at hcase
          exact PType.noConfusion hcase
        · rw [hpt] at hcase
          exact PType.noConfusion hcase
  refine ⟨hmain, ?_⟩
  intro cycles shells r hr hfan
  rcases buildRings_rings cycles (detect_smurfing df) shells r hr with hcy | hsm | hsh
  · rw [hcy] at hfan
    exact absurd hfan (by decide)
  · obtain ⟨p, hp, hmem, -⟩ := hsm
    rw [hmem, List.length_cons]
    have hne := (hmain p hp).1
    have := List.length_pos.mpr hne
    omega
  · rw [hsh] at hfan
    exact absurd hfan (by decide)

/-- C1, witness: a genuine ten-sender fan-in satisfies the amended
invariants. -/
theorem C1_witness :
    (⟨PType.fan_in, "R", ["S0", "S1", "S2", "S3", "S4", "S5", "S6", "S7", "S8", "S9"],
        10⟩ : SmurfPattern).members ≠ [] ∧
    10 ≤ (recvTxns w1df "R").length ∧ spanSec (recvTxns w1df "R") ≤ 259200 := by
  have h := (C1_amended w1df).1
    ⟨PType.fan_in, "R", ["S0", "S1", "S2", "S3", "S4", "S5", "S6", "S7", "S8", "S9"], 10⟩
    (by decide)
  exact ⟨h.1, h.2.1 (Or.inl rfl)⟩
